import Mathlib

set_option maxRecDepth 4000

/-!
Verification of the Patchwork routing core: a shallow embedding of the
packet codec, the Messenger actor, and the Patchwork shard router, with
theorems settling the behavioural claims about them.

Conventions of the embedding:
* Rust `f64` coordinate fields are modelled as exact rationals (`ℚ`);
  the bit pattern of a `Double` on the wire is modelled as a 64-bit `ℕ`.
* `Uuid` connection ids are modelled as `ℕ` (only freshness/equality is used).
* A Rust panic (`unwrap`/`expect` failure) is modelled by an explicit
  `panic` result of the step function: the thread terminates.
* `HashMap`s are modelled as association lists, `HashSet`s as lists.
-/

namespace PatchworkModel

/-- Grid position of a map shard (`Position { x, z }` as constructed and
compared throughout `services/game_state/patchwork.rs`). -/
structure Position where
  x : ℤ
  z : ℤ
deriving DecidableEq, Repr

/-- Network address of a peer shard server (`Peer { address, port }`). -/
structure Peer where
  address : String
  port : ℕ
deriving DecidableEq, Repr

/-- One shard of the world grid. Modelled from the spec: `map.rs` is not
under `src/`; the spec (§3 Map) gives the fields `position`,
`entity_id_block` and the optional `peer_connection`, matching every
construction and field access in `patchwork.rs`. -/
structure Map where
  position : Position
  entity_id_block : ℤ
  peer_connection : Option Peer
deriving DecidableEq, Repr

/-- `Map::new(position, entity_id_block)` builds a local map (no peer). -/
def Map.new (pos : Position) (eib : ℤ) : Map :=
  { position := pos, entity_id_block := eib, peer_connection := none }

/-- Chunk-pillar payload of a `ChunkData` packet (fields as constructed in
`services/game_state/block.rs`; `minecraft_types.rs` is not under `src/`). -/
structure ChunkSection where
  bits_per_block : ℕ
  data_array_length : ℤ
  block_ids : List ℤ
  block_light : List ℕ
  sky_light : List ℕ
deriving DecidableEq, Repr

/-- Fields of the inbound `Handshake` packet (packet table in `models/packet.rs`). -/
structure Handshake where
  protocol_version : ℤ
  server_address : String
  server_port : ℕ
  next_state : ℤ
deriving DecidableEq, Repr

/-- Fields of `Ping` (state 1, id 1). -/
structure Ping where
  payload : ℤ
deriving DecidableEq, Repr

/-- Fields of `LoginStart` (state 2, id 0). -/
structure LoginStart where
  username : String
deriving DecidableEq, Repr

/-- Fields of `KeepAlive` (state 3, id 0x21). -/
structure KeepAlive where
  id : ℤ
deriving DecidableEq, Repr

/-- Fields of `PlayerPosition` (state 3, id 0x10); `x`, `feet_y`, `z` are
wire `Double`s, modelled as exact rationals. -/
structure PlayerPosition where
  x : ℚ
  feet_y : ℚ
  z : ℚ
  on_ground : Bool
deriving DecidableEq, Repr

/-- Fields of `PlayerPositionAndLook` (wildcard state, id 0x11). -/
structure PlayerPositionAndLook where
  x : ℚ
  feet_y : ℚ
  z : ℚ
  yaw : ℚ
  pitch : ℚ
  on_ground : Bool
deriving DecidableEq, Repr

/-- Fields of `PlayerLook` (state 3, id 0x12). -/
structure PlayerLook where
  yaw : ℚ
  pitch : ℚ
  on_ground : Bool
deriving DecidableEq, Repr

/-- Fields of `BorderCrossLogin` (wildcard state, id 0xA0). -/
structure BorderCrossLogin where
  x : ℚ
  feet_y : ℚ
  z : ℚ
  yaw : ℚ
  pitch : ℚ
  on_ground : Bool
  username : String
  entity_id : ℤ
deriving DecidableEq, Repr

/-- Fields of `Pong` (state 99, id 1). -/
structure Pong where
  payload : ℤ
deriving DecidableEq, Repr

/-- Fields of `StatusResponse` (state 99, id 0). -/
structure StatusResponse where
  json_response : String
deriving DecidableEq, Repr

/-- Fields of `LoginSuccess` (state 99, id 2). -/
structure LoginSuccess where
  uuid : String
  username : String
deriving DecidableEq, Repr

/-- Fields of `JoinGame` (state 99, id 0x25). -/
structure JoinGame where
  entity_id : ℤ
  gamemode : ℕ
  dimension : ℤ
  difficulty : ℕ
  max_players : ℕ
  level_type : String
  reduced_debug_info : Bool
deriving DecidableEq, Repr

/-- Fields of `ClientboundPlayerPositionAndLook` (state 99, id 0x32). -/
structure ClientboundPlayerPositionAndLook where
  x : ℚ
  y : ℚ
  z : ℚ
  yaw : ℚ
  pitch : ℚ
  flags : ℤ
  teleport_id : ℤ
deriving DecidableEq, Repr

/-- Fields of `ChunkData` (wildcard state, id 0x22). -/
structure ChunkData where
  chunk_x : ℤ
  chunk_z : ℤ
  full_chunk : Bool
  primary_bit_mask : ℤ
  size : ℤ
  data : ChunkSection
  biomes : List ℤ
  number_of_block_entities : ℤ
deriving DecidableEq, Repr

/-- Fields of `PlayerInfo` (wildcard state, id 0x30); `uuid` is a wire `u128`. -/
structure PlayerInfo where
  action : ℤ
  number_of_players : ℤ
  uuid : ℕ
  name : String
  number_of_properties : ℤ
  gamemode : ℤ
  ping : ℤ
  has_display_name : Bool
deriving DecidableEq, Repr

/-- Fields of `SpawnPlayer` (wildcard state, id 0x05). -/
structure SpawnPlayer where
  entity_id : ℤ
  uuid : ℕ
  x : ℚ
  y : ℚ
  z : ℚ
  yaw : ℕ
  pitch : ℕ
  entity_metadata_terminator : ℕ
deriving DecidableEq, Repr

/-- Fields of `EntityHeadLook` (wildcard state, id 0x39). -/
structure EntityHeadLook where
  entity_id : ℤ
  angle : ℕ
deriving DecidableEq, Repr

/-- Fields of `DestroyEntities` (wildcard state, id 0x35). -/
structure DestroyEntities where
  entity_ids : List ℤ
deriving DecidableEq, Repr

/-- Fields of `EntityLookAndMove` (wildcard state, id 0x29). -/
structure EntityLookAndMove where
  entity_id : ℤ
  delta_x : ℤ
  delta_y : ℤ
  delta_z : ℤ
  yaw : ℕ
  pitch : ℕ
  on_ground : Bool
deriving DecidableEq, Repr

/-- The tagged union of packet kinds generated by `packet_boilerplate!` in
`models/packet.rs`, plus the `Unknown` variant for unrecognized frames and
the fieldless kinds `StatusRequest` (state 1, id 0) and `ReportState`
(state 6, id 1). -/
inductive Packet where
  | Handshake (p : Handshake)
  | StatusRequest
  | Ping (p : Ping)
  | LoginStart (p : LoginStart)
  | KeepAlive (p : KeepAlive)
  | PlayerPosition (p : PlayerPosition)
  | PlayerPositionAndLook (p : PlayerPositionAndLook)
  | PlayerLook (p : PlayerLook)
  | ReportState
  | BorderCrossLogin (p : BorderCrossLogin)
  | Pong (p : Pong)
  | StatusResponse (p : StatusResponse)
  | LoginSuccess (p : LoginSuccess)
  | JoinGame (p : JoinGame)
  | ClientboundPlayerPositionAndLook (p : ClientboundPlayerPositionAndLook)
  | ChunkData (p : ChunkData)
  | PlayerInfo (p : PlayerInfo)
  | SpawnPlayer (p : SpawnPlayer)
  | EntityHeadLook (p : EntityHeadLook)
  | DestroyEntities (p : DestroyEntities)
  | EntityLookAndMove (p : EntityLookAndMove)
  | Unknown
deriving DecidableEq, Repr

/-- The value of the Rust expression `(q / 16.0) as i32` on an exact value
`q`: division by 16, then truncation toward zero (`Int.tdiv` is Rust's
integer-cast rounding mode; the division of an `f64` by 16.0 is exact). The
i32 saturation of the `as` cast is in `extract_map_position` itself. -/
def truncDiv16 (q : ℚ) : ℤ :=
  Int.tdiv q.num (16 * (q.den : ℤ))

/-- Saturation of Rust's float-to-`i32` `as` cast to the i32 range. -/
def satI32 (n : ℤ) : ℤ :=
  max (-(2 ^ 31)) (min (2 ^ 31 - 1) n)

/-- `extract_map_position` (patchwork.rs:113-125): the grid cell of a
position-bearing packet, computed as `(packet.x / 16.0) as i32` and
`(packet.z / 16.0) as i32`; `None` for every other packet kind. -/
def extract_map_position : Packet → Option Position
  | .PlayerPosition p =>
      some { x := satI32 (truncDiv16 p.x), z := satI32 (truncDiv16 p.z) }
  | .PlayerPositionAndLook p =>
      some { x := satI32 (truncDiv16 p.x), z := satI32 (truncDiv16 p.z) }
  | _ => none

/-- `Patchwork::position_map_index` (patchwork.rs:203-208): index of the
first map whose `position` equals the query. The source's
`.expect("Could not find map for position")` panic is modelled by `none`. -/
def position_map_index (maps : List Map) (pos : Position) : Option ℕ :=
  match maps with
  | [] => none
  | m :: rest =>
      if m.position = pos then some 0
      else (position_map_index rest pos).map (· + 1)

/-- Grid cell as the spec words it: `(floor(x / CHUNK_SIZE), floor(z / CHUNK_SIZE))`
with `CHUNK_SIZE = 16`. Stated from the spec for comparison with the code's
`extract_map_position`. -/
def specCell (x z : ℚ) : Position :=
  { x := ⌊x / 16⌋, z := ⌊z / 16⌋ }

/-- Shard list used to witness the amended C1. -/
def C1maps : List Map :=
  [Map.new { x := 0, z := 0 } 0,
   { position := { x := 1, z := 0 }, entity_id_block := 1,
     peer_connection := some { address := "peer", port := 25565 } }]

/-- Per-connection outbound transform stored by the Messenger. The struct is
constructed literally in `messenger.rs:194-200` with fields `state` and
`map` (`translation.rs` itself is not under `src/`). -/
structure TranslationInfo where
  state : ℕ
  map : Map
deriving DecidableEq, Repr

/-- Modelled from the spec: `translate_outgoing` (its body lives in
`packet_macros.rs`/`translation.rs`, not under `src/`). Per spec §4.1, every
field with a position-bearing semantic role is rebased by subtracting the
sending shard's origin and adding the target shard's origin, scaled by
`CHUNK_SIZE = 16` world units for entity-granularity fields (the `XEntity`
roles of the packet table in `models/packet.rs`: `PlayerPosition.x`,
`PlayerPositionAndLook.x`, `BorderCrossLogin.x`, `SpawnPlayer.x`) and by
whole grid cells for the chunk-granularity field (`XChunk` role:
`ChunkData.chunk_x`, one grid cell = one chunk = 16 world units). Fields
without a position-bearing role pass through unchanged. The sending shard's
origin is passed explicitly; the target origin is `t.map.position`. -/
def translate_outgoing (p : Packet) (sendingOrigin : Position) (t : TranslationInfo) : Packet :=
  let dxe : ℚ := (((t.map.position.x - sendingOrigin.x) * 16 : ℤ) : ℚ)
  let dxc : ℤ := t.map.position.x - sendingOrigin.x
  match p with
  | .PlayerPosition q => .PlayerPosition { q with x := q.x + dxe }
  | .PlayerPositionAndLook q => .PlayerPositionAndLook { q with x := q.x + dxe }
  | .BorderCrossLogin q => .BorderCrossLogin { q with x := q.x + dxe }
  | .SpawnPlayer q => .SpawnPlayer { q with x := q.x + dxe }
  | .ChunkData q => .ChunkData { q with chunk_x := q.chunk_x + dxc }
  | q => q

/-- Whether a packet kind carries any field with a position-bearing
semantic role (`XEntity` or `XChunk`) in the packet table. -/
def hasPositionalRole : Packet → Bool
  | .PlayerPosition _ => true
  | .PlayerPositionAndLook _ => true
  | .BorderCrossLogin _ => true
  | .SpawnPlayer _ => true
  | .ChunkData _ => true
  | _ => false

/-- TranslationInfo targeting the shard at `pos`, as the Messenger stores it
(protocol-state field 0, per the `UpdateTranslation` arm). -/
def transInfoFor (pos : Position) : TranslationInfo :=
  { state := 0, map := Map.new pos 0 }

/-- The state owned by the Messenger actor loop (`messenger.rs:104-108`):
the socket of a connection id is irrelevant to the claims, so
`connection_map` keeps only the registered ids. -/
structure MessengerState where
  connection_map : List ℕ
  local_only_broadcast_list : List ℕ
  all_broadcast_list : List ℕ
  translation_data : List (ℕ × TranslationInfo)
deriving DecidableEq, Repr

/-- `MessengerOperations` (messenger.rs:59-65). `subscribeAll` and
`subscribeLocalOnly` are the two `SubscriberType`s. -/
inductive MessengerOp where
  | send (conn_id : ℕ) (packet : Packet)
  | broadcast (packet : Packet) (source_conn_id : Option ℕ) (localFlag : Bool)
  | subscribeAll (conn_id : ℕ)
  | subscribeLocalOnly (conn_id : ℕ)
  | newConn (conn_id : ℕ)
  | updateTranslation (conn_id : ℕ) (map : Map)
deriving DecidableEq, Repr

/-- Association-list lookup (HashMap::get). -/
def alistGet {α : Type} (l : List (ℕ × α)) (k : ℕ) : Option α :=
  ((l.find? fun q => q.1 == k).map fun q => q.2)

/-- Association-list insert, last write wins (HashMap::insert). -/
def alistPut {α : Type} (l : List (ℕ × α)) (k : ℕ) (v : α) : List (ℕ × α) :=
  match l with
  | [] => [(k, v)]
  | (k', v') :: rest => if k' = k then (k, v) :: rest else (k', v') :: alistPut rest k v

/-- HashSet::insert on the list model (no duplicate added). -/
def setInsert (l : List ℕ) (k : ℕ) : List ℕ :=
  if k ∈ l then l else k :: l

/-- The socket writes performed by the `Broadcast` arm
(messenger.rs:132-164): every member of the `all` set that is not the
source and has a registered socket receives the raw packet; if `local` is
set, every member of the `local-only` set with a registered socket also
receives it — the local-only loop performs no source check. -/
def broadcastWrites (ms : MessengerState) (pkt : Packet) (src : Option ℕ)
    (localFlag : Bool) : List (ℕ × Packet) :=
  ((ms.all_broadcast_list.filter fun c =>
      (match src with
       | none => true
       | some s => decide (s ≠ c)) && ms.connection_map.contains c).map
    fun c => (c, pkt))
  ++ (if localFlag then
        ((ms.local_only_broadcast_list.filter fun c =>
            ms.connection_map.contains c).map fun c => (c, pkt))
      else [])

/-- One iteration of the Messenger actor loop (messenger.rs:110-203):
returns the new state and the socket writes performed. The `Send` arm
translates through the stored TranslationInfo (the sender's own frame is
its local origin `(0,0)`); an unknown conn id writes nothing. -/
def messengerStep (ms : MessengerState) : MessengerOp → MessengerState × List (ℕ × Packet)
  | .send c pkt =>
      if ms.connection_map.contains c then
        match alistGet ms.translation_data c with
        | some ti => (ms, [(c, translate_outgoing pkt { x := 0, z := 0 } ti)])
        | none => (ms, [(c, pkt)])
      else (ms, [])
  | .broadcast pkt src localFlag => (ms, broadcastWrites ms pkt src localFlag)
  | .subscribeAll c =>
      ({ ms with all_broadcast_list := setInsert ms.all_broadcast_list c }, [])
  | .subscribeLocalOnly c =>
      ({ ms with local_only_broadcast_list := setInsert ms.local_only_broadcast_list c }, [])
  | .newConn c =>
      ({ ms with connection_map := setInsert ms.connection_map c }, [])
  | .updateTranslation c map =>
      ({ ms with translation_data := alistPut ms.translation_data c { state := 0, map := map } }, [])

/-- The Messenger's state before any operation: all registries empty. -/
def MessengerState.initial : MessengerState :=
  { connection_map := [], local_only_broadcast_list := [],
    all_broadcast_list := [], translation_data := [] }

/-- Messenger states reachable by processing any mailbox sequence. -/
inductive MessengerReachable : MessengerState → Prop where
  | init : MessengerReachable MessengerState.initial
  | step {ms : MessengerState} {op : MessengerOp} :
      MessengerReachable ms → MessengerReachable (messengerStep ms op).1

/-- Messenger state with connection 7 registered and subscribed only to the
local-only set. -/
def C2ms : MessengerState :=
  { connection_map := [7], local_only_broadcast_list := [7],
    all_broadcast_list := [], translation_data := [] }

/-- Per-player routing state (`Anchor` in patchwork.rs:127-131): the index
of the owning shard and, if that shard is remote, the proxy conn id. -/
structure Anchor where
  map_index : ℕ
  conn_id : Option ℕ
deriving DecidableEq, Repr

/-- Messages the router sends to the Messenger during routing
(the `MessengerOperations` constructed in patchwork.rs). -/
inductive RouterToMessenger where
  | newConn (conn_id : ℕ)
  | updateTranslation (conn_id : ℕ) (map : Map)
  | send (conn_id : ℕ) (packet : Packet)
deriving DecidableEq, Repr

/-- Messages the router sends to the player-state keeper. -/
inductive RouterToPlayer where
  | crossBorder (local_conn_id remote_conn_id : ℕ)
deriving DecidableEq, Repr

/-- Side effects of one routing step: messages to the Messenger, messages
to the player-state keeper, and packets handed to the local gameplay
router (keyed by the original conn id). -/
structure RouteEffects where
  messenger : List RouterToMessenger
  player : List RouterToPlayer
  gameplay : List (ℕ × Packet)
deriving DecidableEq, Repr

/-- The hardcoded handshake sent over a freshly opened peer connection
(patchwork.rs:158-168). -/
def handshakePacket : Packet :=
  Packet.Handshake { protocol_version := 404, server_address := "",
                     server_port := 0, next_state := 4 }

/-- `Anchor::connect` (patchwork.rs:134-180). `connectOk` models whether
`server::new_connection` to the peer succeeds; `freshId` models the
`Uuid::new_v4()` proxy conn id. On success: register the new connection,
install a TranslationInfo whose map is `Map::new(Position { x: x_origin,
z: 0 }, 0)`, send the handshake, and notify the player-state keeper of the
cross-border bridge. On failure (`?` on the io::Error) no message is sent
and no anchor is produced. -/
def Anchor.connect (peer : Peer) (local_conn_id : ℕ) (map_index : ℕ) (x_origin : ℤ)
    (connectOk : Bool) (freshId : ℕ) : Option (Anchor × RouteEffects) :=
  if connectOk then
    some ({ map_index := map_index, conn_id := some freshId },
      { messenger :=
          [.newConn freshId,
           .updateTranslation freshId (Map.new { x := x_origin, z := 0 } 0),
           .send freshId handshakePacket],
        player := [.crossBorder local_conn_id freshId],
        gameplay := [] })
  else none

/-- The Patchwork router state (`Patchwork` in patchwork.rs:182-186). -/
structure Patchwork where
  maps : List Map
  player_anchors : List (ℕ × Anchor)
deriving DecidableEq, Repr

/-- `Patchwork::next_entity_id_block` (patchwork.rs:231-234): the block
index handed to the next appended map is the current number of maps. -/
def next_entity_id_block (st : Patchwork) : ℤ :=
  st.maps.length

/-- `Patchwork::next_position` (patchwork.rs:236-240): maps line up in a
single row. -/
def next_position (st : Patchwork) : Position :=
  { x := st.maps.length, z := 0 }

/-- `Patchwork::create_local_map` (patchwork.rs:198-201). -/
def create_local_map (st : Patchwork) : Patchwork :=
  { st with maps := st.maps ++ [Map.new (next_position st) (next_entity_id_block st)] }

/-- `Patchwork::new` (patchwork.rs:188-196): an empty patchwork plus the
initial local map. -/
def Patchwork.new : Patchwork :=
  create_local_map { maps := [], player_anchors := [] }

/-- `Patchwork::add_peer_map` (patchwork.rs:210-223): a peer map is
appended only when `Map::connect` succeeds (`if let Ok`); the success of
that network call is the `connectOk` oracle (`map.rs` is not under `src/`;
its messages to the Messenger are not modelled, the claims concern only the
shard list). -/
def add_peer_map (st : Patchwork) (peer : Peer) (connectOk : Bool) : Patchwork :=
  if connectOk then
    { st with maps := st.maps ++
        [{ position := next_position st, entity_id_block := next_entity_id_block st,
           peer_connection := some peer }] }
  else st

/-- The distinct panics the `RoutePlayerPacket` arm can raise: the
`.expect("Could not find map for position")` in `position_map_index`, the
`.unwrap()` on the `io::Error` returned by `Anchor::connect`, the
`anchor.conn_id.unwrap()` when forwarding, and a slice-index panic. -/
inductive PanicKind where
  | indexOutOfBounds
  | noMapForPosition
  | connectFailed
  | unwrapNoneConnId
deriving DecidableEq, Repr

/-- Result of one routing step: either the new state with its effects, or a
panic (an `unwrap`/`expect` failure) that kills the router thread. -/
inductive RouteResult where
  | ok (st : Patchwork) (eff : RouteEffects)
  | panic (k : PanicKind)
deriving DecidableEq, Repr

/-- The tail of the `RoutePlayerPacket` arm (patchwork.rs:84-103): with the
(possibly updated) anchor in hand, forward the packet through the anchor's
proxy connection if the anchored shard is remote (dropping `Unknown`), or
hand it to the local gameplay router. The `maps[...]` indexing and the
`anchor.conn_id.unwrap()` can panic. -/
def routeThroughAnchor (maps : List Map) (anchors : List (ℕ × Anchor)) (conn_id : ℕ)
    (pkt : Packet) (anchor : Anchor) (eff : RouteEffects) : RouteResult :=
  match maps[anchor.map_index]? with
  | none => .panic .indexOutOfBounds
  | some m =>
    match m.peer_connection with
    | some _ =>
      match pkt with
      | .Unknown => .ok { maps := maps, player_anchors := anchors } eff
      | _ =>
        match anchor.conn_id with
        | none => .panic .unwrapNoneConnId
        | some pc =>
            .ok { maps := maps, player_anchors := anchors }
              { eff with messenger := eff.messenger ++ [.send pc pkt] }
    | none =>
        .ok { maps := maps, player_anchors := anchors }
          { eff with gameplay := eff.gameplay ++ [(conn_id, pkt)] }

/-- The `RoutePlayerPacket` arm of `start` (patchwork.rs:55-104): lazily
create the anchor (defaulting to shard 0, no proxy), re-anchor on a border
crossing — `Anchor::connect(...).unwrap()` panics when the peer connection
cannot be opened, and `position_map_index`'s `.expect` panics when no shard
matches the cell — then route the packet through the final anchor. -/
def routePlayerPacket (st : Patchwork) (conn_id : ℕ) (pkt : Packet)
    (connectOk : Bool) (freshId : ℕ) : RouteResult :=
  let anchor0 : Anchor := (alistGet st.player_anchors conn_id).getD
    { map_index := 0, conn_id := none }
  let anchors1 : List (ℕ × Anchor) :=
    if (alistGet st.player_anchors conn_id).isSome then st.player_anchors
    else st.player_anchors ++ [(conn_id, { map_index := 0, conn_id := none })]
  let noEff : RouteEffects := { messenger := [], player := [], gameplay := [] }
  match extract_map_position pkt with
  | none => routeThroughAnchor st.maps anchors1 conn_id pkt anchor0 noEff
  | some position =>
    match position_map_index st.maps position with
    | none => .panic .noMapForPosition
    | some new_map_index =>
      if new_map_index = anchor0.map_index then
        routeThroughAnchor st.maps anchors1 conn_id pkt anchor0 noEff
      else
        match st.maps[new_map_index]? with
        | none => .panic .indexOutOfBounds
        | some m =>
          match m.peer_connection with
          | some peer =>
            match Anchor.connect peer conn_id new_map_index m.position.x connectOk freshId with
            | none => .panic .connectFailed
            | some (a, eff) =>
                routeThroughAnchor st.maps (alistPut anchors1 conn_id a) conn_id pkt a eff
          | none =>
              routeThroughAnchor st.maps
                (alistPut anchors1 conn_id { map_index := new_map_index, conn_id := none })
                conn_id pkt { map_index := new_map_index, conn_id := none } noEff

/-- The operations of the Patchwork router mailbox
(`PatchworkStateOperations`), each tagged with the oracle outcomes of the
network calls it may make. -/
inductive PatchworkOp where
  | newMap (peer : Peer) (connectOk : Bool)
  | route (conn_id : ℕ) (pkt : Packet) (connectOk : Bool) (freshId : ℕ)
  | report
deriving DecidableEq, Repr

/-- One iteration of the router loop (patchwork.rs:45-110); `none` when the
iteration panics (killing the thread). `Report` only emits packets built
from the shard list (`map.report`, in the absent `map.rs`); it does not
change the state. -/
def patchworkStep (st : Patchwork) : PatchworkOp → Option Patchwork
  | .newMap peer ok => some (add_peer_map st peer ok)
  | .route c pkt ok fid =>
    match routePlayerPacket st c pkt ok fid with
    | .ok st' _ => some st'
    | .panic _ => none
  | .report => some st

/-- Router states reachable from initialization by any operation sequence. -/
inductive Reachable : Patchwork → Prop where
  | init : Reachable Patchwork.new
  | step {st st' : Patchwork} {op : PatchworkOp} :
      Reachable st → patchworkStep st op = some st' → Reachable st'

/-- Two-shard router state: shard 0 local at grid (0,0), shard 1 remote at
grid (1,0), with player connection 1 anchored to local shard 0. -/
def crossingState : Patchwork :=
  { maps := [Map.new { x := 0, z := 0 } 0,
             { position := { x := 1, z := 0 }, entity_id_block := 1,
               peer_connection := some { address := "peer", port := 25565 } }],
    player_anchors := [(1, { map_index := 0, conn_id := none })] }

/-- Inbound `PlayerPosition` with `x = 17.0, z = 0.0` (grid cell (1,0)). -/
def crossingPacket : Packet :=
  Packet.PlayerPosition { x := 17, feet_y := 64, z := 0, on_ground := true }

/-- Number of `NewConnection` registrations among messages to the Messenger. -/
def countNewConns (l : List RouterToMessenger) : ℕ :=
  (l.filter fun m => match m with | .newConn _ => true | _ => false).length

/-- The `UpdateTranslation` installs among messages to the Messenger. -/
def translationInstalls (l : List RouterToMessenger) : List (ℕ × Map) :=
  l.filterMap fun m => match m with
    | .updateTranslation c mp => some (c, mp)
    | _ => none

/-- Modelled from the spec: the exclusive range of entity ids denoted by a
map's stored block index (`map.rs` is not under `src/`; spec §3 gives the
block width `ENTITY_ID_BLOCK_SIZE = 1000`, the constant declared in
patchwork.rs:17): block `b` owns ids `b*1000` up to exclusive
`(b+1)*1000`. -/
def inEntityIdBlock (m : Map) (id : ℤ) : Prop :=
  m.entity_id_block * 1000 ≤ id ∧ id < (m.entity_id_block + 1) * 1000

/-- The patchwork after provisioning one remote peer shard. -/
def C4state : Patchwork :=
  add_peer_map Patchwork.new { address := "peer", port := 25565 } true

/-- The remote shard appended second in `C4state`. -/
def C4mapRemote : Map :=
  { position := { x := 1, z := 0 }, entity_id_block := 1,
    peer_connection := some { address := "peer", port := 25565 } }

/-- Modelled from the spec: the 7-bit-group, high-bit-continuation VarInt
byte encoding of an unsigned 32-bit value, least-significant group first
(`minecraft_protocol.rs` is not under `src/`; format per spec §4.1/§6).
The fuel argument (5 suffices for any `u32`) keeps the recursion
structural. -/
def encVarUAux : ℕ → ℕ → List ℕ
  | 0, n => [n % 128]
  | fuel + 1, n => if n < 128 then [n] else (n % 128 + 128) :: encVarUAux fuel (n / 128)

/-- VarInt bytes of an unsigned 32-bit value. -/
def encVarU (n : ℕ) : List ℕ :=
  encVarUAux 5 n

/-- Reads a VarInt-encoded unsigned value from at most `k` bytes; `none` on
an empty stream or when the continuation chain exceeds the budget (a
structurally invalid VarInt per spec §4.1 reads at most 5 bytes). -/
def decVarU : ℕ → List ℕ → Option (ℕ × List ℕ)
  | 0, _ => none
  | _ + 1, [] => none
  | k + 1, b :: rest =>
    if b < 128 then some (b, rest)
    else
      match decVarU k rest with
      | some (m, r) => some (b % 128 + m * 128, r)
      | none => none

/-- VarInt bytes of an `i32`, encoded through its unsigned 32-bit two's
complement representation. -/
def varIntBytes (v : ℤ) : List ℕ :=
  encVarU ((v % (2 ^ 32 : ℤ)).toNat)

/-- Reads an `i32` VarInt (at most 5 bytes), reinterpreting the unsigned
32-bit value as two's complement. -/
def decVarI32 (bs : List ℕ) : Option (ℤ × List ℕ) :=
  match decVarU 5 bs with
  | some (u, r) => some (if (u : ℤ) < 2 ^ 31 then (u : ℤ) else (u : ℤ) - 2 ^ 32, r)
  | none => none

/-- Big-endian fixed-width byte encoding of an unsigned value. -/
def beBytes : ℕ → ℕ → List ℕ
  | 0, _ => []
  | w + 1, n => (n / 256 ^ w) :: beBytes w (n % 256 ^ w)

/-- Reads `w` big-endian bytes into an unsigned value. -/
def readBE : ℕ → List ℕ → Option (ℕ × List ℕ)
  | 0, bs => some (0, bs)
  | _ + 1, [] => none
  | w + 1, b :: bs =>
    match readBE w bs with
    | some (m, r) => some (b * 256 ^ w + m, r)
    | none => none

/-- Big-endian fixed-width encoding of a signed value through its two's
complement representation. -/
def encSigned (w : ℕ) (v : ℤ) : List ℕ :=
  beBytes w ((v % ((2 : ℤ) ^ (8 * w))).toNat)

/-- Reads `w` big-endian bytes as a two's complement signed value. -/
def decSigned (w : ℕ) (bs : List ℕ) : Option (ℤ × List ℕ) :=
  match readBE w bs with
  | some (u, r) =>
    some (if (u : ℤ) < 2 ^ (8 * w - 1) then (u : ℤ) else (u : ℤ) - 2 ^ (8 * w), r)
  | none => none

/-- Takes exactly `n` bytes from the stream. -/
def readBytesN (n : ℕ) (bs : List ℕ) : Option (List ℕ × List ℕ) :=
  if n ≤ bs.length then some (bs.take n, bs.drop n) else none

/-- The primitive wire types of the packet table (spec §3: VarInt, UShort,
Long, Double, Float, Boolean, UByte, Byte, Short, Int, u128, String). -/
inductive PrimType where
  | varInt
  | uShort
  | long
  | double
  | float
  | boolean
  | uByte
  | byte
  | short
  | int
  | u128
  | str
deriving DecidableEq, Repr

/-- A field's wire type in the packet table: a primitive, the chunk-section
payload, a fixed-size array of a primitive (`Array(Int, 256)`), or a
VarInt-length-prefixed array of a primitive (`LengthPrefixedArray(VarInt)`). -/
inductive FieldType where
  | prim (t : PrimType)
  | chunkSection
  | arrayFixed (elem : PrimType) (size : ℕ)
  | lengthPrefixedArray (elem : PrimType)
deriving DecidableEq, Repr

/-- A primitive wire value. Signed integers carry `ℤ`, unsigned integers
and the raw bit patterns of `Double`/`Float` carry `ℕ`, strings carry
their UTF-8 byte sequence. -/
inductive PrimVal where
  | vint (v : ℤ)
  | vnat (v : ℕ)
  | vbool (b : Bool)
  | vstr (bytes : List ℕ)
deriving DecidableEq, Repr

/-- A field value: a primitive, a chunk section, or an array of
primitives. -/
inductive FieldVal where
  | prim (v : PrimVal)
  | vchunk (cs : ChunkSection)
  | varr (elems : List PrimVal)
deriving DecidableEq, Repr

/-- Modelled from the spec: byte encoding of one primitive field value
(spec §4.1; `minecraft_protocol.rs` is not under `src/`). Fixed-width
integers are big-endian, signed values two's complement, VarInt per the
7-bit-group format, Boolean one byte, String a VarInt byte-length prefix
followed by the UTF-8 bytes. `none` when the value does not fit the wire
type (such a value is not constructible in the source). -/
def encodePrim : PrimType → PrimVal → Option (List ℕ)
  | .varInt, .vint v => if -(2 ^ 31) ≤ v ∧ v < 2 ^ 31 then some (varIntBytes v) else none
  | .uShort, .vnat n => if n < 256 ^ 2 then some (beBytes 2 n) else none
  | .long, .vint v => if -(2 ^ 63) ≤ v ∧ v < 2 ^ 63 then some (encSigned 8 v) else none
  | .double, .vnat n => if n < 256 ^ 8 then some (beBytes 8 n) else none
  | .float, .vnat n => if n < 256 ^ 4 then some (beBytes 4 n) else none
  | .boolean, .vbool b => some [if b then 1 else 0]
  | .uByte, .vnat n => if n < 256 ^ 1 then some (beBytes 1 n) else none
  | .byte, .vint v => if -(2 ^ 7) ≤ v ∧ v < 2 ^ 7 then some (encSigned 1 v) else none
  | .short, .vint v => if -(2 ^ 15) ≤ v ∧ v < 2 ^ 15 then some (encSigned 2 v) else none
  | .int, .vint v => if -(2 ^ 31) ≤ v ∧ v < 2 ^ 31 then some (encSigned 4 v) else none
  | .u128, .vnat n => if n < 256 ^ 16 then some (beBytes 16 n) else none
  | .str, .vstr bytes =>
      if (bytes.length : ℤ) < 2 ^ 31 then some (varIntBytes bytes.length ++ bytes) else none
  | _, _ => none

/-- Modelled from the spec: decoding of one primitive field value. -/
def decodePrim : PrimType → List ℕ → Option (PrimVal × List ℕ)
  | .varInt, bs => (decVarI32 bs).map fun q => (.vint q.1, q.2)
  | .uShort, bs => (readBE 2 bs).map fun q => (.vnat q.1, q.2)
  | .long, bs => (decSigned 8 bs).map fun q => (.vint q.1, q.2)
  | .double, bs => (readBE 8 bs).map fun q => (.vnat q.1, q.2)
  | .float, bs => (readBE 4 bs).map fun q => (.vnat q.1, q.2)
  | .boolean, bs =>
      match bs with
      | [] => none
      | b :: rest => some (.vbool (b != 0), rest)
  | .uByte, bs => (readBE 1 bs).map fun q => (.vnat q.1, q.2)
  | .byte, bs => (decSigned 1 bs).map fun q => (.vint q.1, q.2)
  | .short, bs => (decSigned 2 bs).map fun q => (.vint q.1, q.2)
  | .int, bs => (decSigned 4 bs).map fun q => (.vint q.1, q.2)
  | .u128, bs => (readBE 16 bs).map fun q => (.vnat q.1, q.2)
  | .str, bs =>
      match decVarI32 bs with
      | some (len, r) =>
          if 0 ≤ len then (readBytesN len.toNat r).map fun q => (.vstr q.1, q.2) else none
      | none => none

/-- Encodes a homogeneous list of primitive values, concatenated. -/
def encodePrimList (t : PrimType) : List PrimVal → Option (List ℕ)
  | [] => some []
  | v :: vs =>
    match encodePrim t v, encodePrimList t vs with
    | some b, some bs => some (b ++ bs)
    | _, _ => none

/-- Decodes exactly `n` primitive values. -/
def decodePrimList (t : PrimType) : ℕ → List ℕ → Option (List PrimVal × List ℕ)
  | 0, bs => some ([], bs)
  | n + 1, bs =>
    match decodePrim t bs with
    | some (v, r) => (decodePrimList t n r).map fun q => (v :: q.1, q.2)
    | none => none

/-- VarInt encoding of a list of i32 values (no length prefix). -/
def encVarIntList : List ℤ → Option (List ℕ)
  | [] => some []
  | v :: vs =>
    if -(2 ^ 31) ≤ v ∧ v < 2 ^ 31 then
      (encVarIntList vs).map fun bs => varIntBytes v ++ bs
    else none

/-- Reads `n` VarInt i32 values. -/
def decVarIntList : ℕ → List ℕ → Option (List ℤ × List ℕ)
  | 0, bs => some ([], bs)
  | n + 1, bs =>
    match decVarI32 bs with
    | some (v, r) => (decVarIntList n r).map fun q => (v :: q.1, q.2)
    | none => none

/-- Modelled from the spec: byte encoding of the `ChunkSection` payload as
constructible from `block.rs` (its writer in `minecraft_types.rs` is not
under `src/` and the spec does not fix its layout): `bits_per_block` as one
byte, `data_array_length` as VarInt, then the three arrays each prefixed by
their VarInt length — block ids as VarInts, the light arrays as raw
bytes. -/
def encodeChunk (cs : ChunkSection) : Option (List ℕ) :=
  if cs.bits_per_block < 256
      ∧ (-(2 ^ 31) ≤ cs.data_array_length ∧ cs.data_array_length < 2 ^ 31)
      ∧ (cs.block_ids.length : ℤ) < 2 ^ 31
      ∧ ((cs.block_light.length : ℤ) < 2 ^ 31 ∧ ∀ b ∈ cs.block_light, b < 256)
      ∧ ((cs.sky_light.length : ℤ) < 2 ^ 31 ∧ ∀ b ∈ cs.sky_light, b < 256) then
    (encVarIntList cs.block_ids).map fun ids =>
      cs.bits_per_block :: (varIntBytes cs.data_array_length
        ++ (varIntBytes (cs.block_ids.length) ++ (ids
        ++ (varIntBytes (cs.block_light.length) ++ (cs.block_light
        ++ (varIntBytes (cs.sky_light.length) ++ cs.sky_light))))))
  else none

/-- Modelled from the spec: decoding of the `ChunkSection` payload. -/
def decodeChunk (bs : List ℕ) : Option (FieldVal × List ℕ) :=
  match bs with
  | [] => none
  | bpb :: r0 =>
    match decVarI32 r0 with
    | none => none
    | some (dal, r1) =>
      match decVarI32 r1 with
      | none => none
      | some (nids, r2) =>
        if 0 ≤ nids then
          match decVarIntList nids.toNat r2 with
          | none => none
          | some (ids, r3) =>
            match decVarI32 r3 with
            | none => none
            | some (nbl, r4) =>
              if 0 ≤ nbl then
                match readBytesN nbl.toNat r4 with
                | none => none
                | some (bl, r5) =>
                  match decVarI32 r5 with
                  | none => none
                  | some (nsl, r6) =>
                    if 0 ≤ nsl then
                      match readBytesN nsl.toNat r6 with
                      | none => none
                      | some (sl, r7) =>
                        some (FieldVal.vchunk ⟨bpb, dal, ids, bl, sl⟩, r7)
                    else none
              else none
        else none

/-- Modelled from the spec: byte encoding of one field value of any wire
type (spec §4.1: fixed arrays write exactly their elements, length-prefixed
arrays write a VarInt count first). -/
def encodeVal : FieldType → FieldVal → Option (List ℕ)
  | .prim t, .prim v => encodePrim t v
  | .prim _, _ => none
  | .chunkSection, .vchunk cs => encodeChunk cs
  | .chunkSection, _ => none
  | .arrayFixed t n, .varr vs => if vs.length = n then encodePrimList t vs else none
  | .arrayFixed _ _, _ => none
  | .lengthPrefixedArray t, .varr vs =>
      if (vs.length : ℤ) < 2 ^ 31 then
        (encodePrimList t vs).map fun bs => varIntBytes vs.length ++ bs
      else none
  | .lengthPrefixedArray _, _ => none

/-- Modelled from the spec: decoding of one field value of any wire type. -/
def decodeVal : FieldType → List ℕ → Option (FieldVal × List ℕ)
  | .prim t, bs => (decodePrim t bs).map fun q => (.prim q.1, q.2)
  | .chunkSection, bs => decodeChunk bs
  | .arrayFixed t n, bs => (decodePrimList t n bs).map fun q => (.varr q.1, q.2)
  | .lengthPrefixedArray t, bs =>
      match decVarI32 bs with
      | some (len, r) =>
        if 0 ≤ len then (decodePrimList t len.toNat r).map fun q => (.varr q.1, q.2)
        else none
      | none => none

/-- The optional semantic role of a field in the packet table, used by
outbound translation. -/
inductive Role where
  | plain
  | xEntity
  | xChunk
  | entityId
  | arrayEntityId
deriving DecidableEq, Repr

/-- One field declaration of the packet table: name, wire type, role. -/
structure PacketField where
  fname : String
  ftype : FieldType
  role : Role
deriving DecidableEq, Repr

/-- One row of the static packet table of `packet_boilerplate!` in
`models/packet.rs`: the protocol state in which the packet is valid
(`none` for the `_` wildcard rows), its numeric wire id, and its ordered
field list. -/
structure PacketEntry where
  pstate : Option ℕ
  pname : String
  pid : ℤ
  fields : List PacketField
deriving DecidableEq, Repr

/-- Table row (0, Handshake, 0). -/
def entryHandshake : PacketEntry :=
  { pstate := some 0, pname := "Handshake", pid := 0, fields :=
    [⟨"protocol_version", .prim .varInt, .plain⟩,
     ⟨"server_address", .prim .str, .plain⟩,
     ⟨"server_port", .prim .uShort, .plain⟩,
     ⟨"next_state", .prim .varInt, .plain⟩] }

/-- Table row (1, StatusRequest, 0). -/
def entryStatusRequest : PacketEntry :=
  { pstate := some 1, pname := "StatusRequest", pid := 0, fields := [] }

/-- Table row (1, Ping, 1). -/
def entryPing : PacketEntry :=
  { pstate := some 1, pname := "Ping", pid := 1, fields :=
    [⟨"payload", .prim .long, .plain⟩] }

/-- Table row (2, LoginStart, 0). -/
def entryLoginStart : PacketEntry :=
  { pstate := some 2, pname := "LoginStart", pid := 0, fields :=
    [⟨"username", .prim .str, .plain⟩] }

/-- Table row (3, KeepAlive, 0x21). -/
def entryKeepAlive : PacketEntry :=
  { pstate := some 3, pname := "KeepAlive", pid := 33, fields :=
    [⟨"id", .prim .long, .plain⟩] }

/-- Table row (3, PlayerPosition, 0x10). -/
def entryPlayerPosition : PacketEntry :=
  { pstate := some 3, pname := "PlayerPosition", pid := 16, fields :=
    [⟨"x", .prim .double, .xEntity⟩,
     ⟨"feet_y", .prim .double, .plain⟩,
     ⟨"z", .prim .double, .plain⟩,
     ⟨"on_ground", .prim .boolean, .plain⟩] }

/-- Table row (_, PlayerPositionAndLook, 0x11); the state is a wildcard
temporarily for border crossing, per the comment in the table. -/
def entryPlayerPositionAndLook : PacketEntry :=
  { pstate := none, pname := "PlayerPositionAndLook", pid := 17, fields :=
    [⟨"x", .prim .double, .xEntity⟩,
     ⟨"feet_y", .prim .double, .plain⟩,
     ⟨"z", .prim .double, .plain⟩,
     ⟨"yaw", .prim .float, .plain⟩,
     ⟨"pitch", .prim .float, .plain⟩,
     ⟨"on_ground", .prim .boolean, .plain⟩] }

/-- Table row (3, PlayerLook, 0x12). -/
def entryPlayerLook : PacketEntry :=
  { pstate := some 3, pname := "PlayerLook", pid := 18, fields :=
    [⟨"yaw", .prim .float, .plain⟩,
     ⟨"pitch", .prim .float, .plain⟩,
     ⟨"on_ground", .prim .boolean, .plain⟩] }

/-- Table row (6, ReportState, 0x1). -/
def entryReportState : PacketEntry :=
  { pstate := some 6, pname := "ReportState", pid := 1, fields := [] }

/-- Table row (_, BorderCrossLogin, 0xA0). -/
def entryBorderCrossLogin : PacketEntry :=
  { pstate := none, pname := "BorderCrossLogin", pid := 160, fields :=
    [⟨"x", .prim .double, .xEntity⟩,
     ⟨"feet_y", .prim .double, .plain⟩,
     ⟨"z", .prim .double, .plain⟩,
     ⟨"yaw", .prim .float, .plain⟩,
     ⟨"pitch", .prim .float, .plain⟩,
     ⟨"on_ground", .prim .boolean, .plain⟩,
     ⟨"username", .prim .str, .plain⟩,
     ⟨"entity_id", .prim .int, .entityId⟩] }

/-- Table row (99, Pong, 1). -/
def entryPong : PacketEntry :=
  { pstate := some 99, pname := "Pong", pid := 1, fields :=
    [⟨"payload", .prim .long, .plain⟩] }

/-- Table row (99, StatusResponse, 0). -/
def entryStatusResponse : PacketEntry :=
  { pstate := some 99, pname := "StatusResponse", pid := 0, fields :=
    [⟨"json_response", .prim .str, .plain⟩] }

/-- Table row (99, LoginSuccess, 2). -/
def entryLoginSuccess : PacketEntry :=
  { pstate := some 99, pname := "LoginSuccess", pid := 2, fields :=
    [⟨"uuid", .prim .str, .plain⟩,
     ⟨"username", .prim .str, .plain⟩] }

/-- Table row (99, JoinGame, 0x25). -/
def entryJoinGame : PacketEntry :=
  { pstate := some 99, pname := "JoinGame", pid := 37, fields :=
    [⟨"entity_id", .prim .int, .entityId⟩,
     ⟨"gamemode", .prim .uByte, .plain⟩,
     ⟨"dimension", .prim .int, .plain⟩,
     ⟨"difficulty", .prim .uByte, .plain⟩,
     ⟨"max_players", .prim .uByte, .plain⟩,
     ⟨"level_type", .prim .str, .plain⟩,
     ⟨"reduced_debug_info", .prim .boolean, .plain⟩] }

/-- Table row (99, ClientboundPlayerPositionAndLook, 0x32). -/
def entryClientboundPlayerPositionAndLook : PacketEntry :=
  { pstate := some 99, pname := "ClientboundPlayerPositionAndLook", pid := 50, fields :=
    [⟨"x", .prim .double, .plain⟩,
     ⟨"y", .prim .double, .plain⟩,
     ⟨"z", .prim .double, .plain⟩,
     ⟨"yaw", .prim .float, .plain⟩,
     ⟨"pitch", .prim .float, .plain⟩,
     ⟨"flags", .prim .byte, .plain⟩,
     ⟨"teleport_id", .prim .varInt, .plain⟩] }

/-- Table row (_, ChunkData, 0x22). -/
def entryChunkData : PacketEntry :=
  { pstate := none, pname := "ChunkData", pid := 34, fields :=
    [⟨"chunk_x", .prim .int, .xChunk⟩,
     ⟨"chunk_z", .prim .int, .plain⟩,
     ⟨"full_chunk", .prim .boolean, .plain⟩,
     ⟨"primary_bit_mask", .prim .varInt, .plain⟩,
     ⟨"size", .prim .varInt, .plain⟩,
     ⟨"data", .chunkSection, .plain⟩,
     ⟨"biomes", .arrayFixed .int 256, .plain⟩,
     ⟨"number_of_block_entities", .prim .varInt, .plain⟩] }

/-- Table row (_, PlayerInfo, 0x30). -/
def entryPlayerInfo : PacketEntry :=
  { pstate := none, pname := "PlayerInfo", pid := 48, fields :=
    [⟨"action", .prim .varInt, .plain⟩,
     ⟨"number_of_players", .prim .varInt, .plain⟩,
     ⟨"uuid", .prim .u128, .plain⟩,
     ⟨"name", .prim .str, .plain⟩,
     ⟨"number_of_properties", .prim .varInt, .plain⟩,
     ⟨"gamemode", .prim .varInt, .plain⟩,
     ⟨"ping", .prim .varInt, .plain⟩,
     ⟨"has_display_name", .prim .boolean, .plain⟩] }

/-- Table row (_, SpawnPlayer, 0x05). -/
def entrySpawnPlayer : PacketEntry :=
  { pstate := none, pname := "SpawnPlayer", pid := 5, fields :=
    [⟨"entity_id", .prim .varInt, .entityId⟩,
     ⟨"uuid", .prim .u128, .plain⟩,
     ⟨"x", .prim .double, .xEntity⟩,
     ⟨"y", .prim .double, .plain⟩,
     ⟨"z", .prim .double, .plain⟩,
     ⟨"yaw", .prim .uByte, .plain⟩,
     ⟨"pitch", .prim .uByte, .plain⟩,
     ⟨"entity_metadata_terminator", .prim .uByte, .plain⟩] }

/-- Table row (_, EntityHeadLook, 0x39). -/
def entryEntityHeadLook : PacketEntry :=
  { pstate := none, pname := "EntityHeadLook", pid := 57, fields :=
    [⟨"entity_id", .prim .varInt, .entityId⟩,
     ⟨"angle", .prim .uByte, .plain⟩] }

/-- Table row (_, DestroyEntities, 0x35). -/
def entryDestroyEntities : PacketEntry :=
  { pstate := none, pname := "DestroyEntities", pid := 53, fields :=
    [⟨"entity_ids", .lengthPrefixedArray .varInt, .arrayEntityId⟩] }

/-- Table row (_, EntityLookAndMove, 0x29). -/
def entryEntityLookAndMove : PacketEntry :=
  { pstate := none, pname := "EntityLookAndMove", pid := 41, fields :=
    [⟨"entity_id", .prim .varInt, .entityId⟩,
     ⟨"delta_x", .prim .short, .plain⟩,
     ⟨"delta_y", .prim .short, .plain⟩,
     ⟨"delta_z", .prim .short, .plain⟩,
     ⟨"yaw", .prim .uByte, .plain⟩,
     ⟨"pitch", .prim .uByte, .plain⟩,
     ⟨"on_ground", .prim .boolean, .plain⟩] }

/-- The static packet table of `packet_boilerplate!` (models/packet.rs:12-180),
rows in declaration order. -/
def packetTable : List PacketEntry :=
  [entryHandshake, entryStatusRequest, entryPing, entryLoginStart,
   entryKeepAlive, entryPlayerPosition, entryPlayerPositionAndLook,
   entryPlayerLook, entryReportState, entryBorderCrossLogin, entryPong,
   entryStatusResponse, entryLoginSuccess, entryJoinGame,
   entryClientboundPlayerPositionAndLook, entryChunkData, entryPlayerInfo,
   entrySpawnPlayer, entryEntityHeadLook, entryDestroyEntities,
   entryEntityLookAndMove]

/-- Whether a table row's declared state accepts a protocol state (`none`
is the `_` wildcard, accepting every state). -/
def stateMatches : Option ℕ → ℕ → Bool
  | none, _ => true
  | some k, s => k == s

/-- Whether two declared states can accept a common protocol state. -/
def statesOverlap : Option ℕ → Option ℕ → Bool
  | none, _ => true
  | _, none => true
  | some a, some b => a == b

/-- Decode-side lookup of the static packet table: the first row whose
declared state matches the current protocol state and whose id matches. -/
def tableLookup (s : ℕ) (i : ℤ) : Option PacketEntry :=
  packetTable.find? fun e => stateMatches e.pstate s && e.pid == i

/-- Lookup under the weaker, state-independent key: used to state that the
table's (state, id) keys are unambiguous. -/
def overlapLookup (e : PacketEntry) : Option PacketEntry :=
  packetTable.find? fun q => statesOverlap q.pstate e.pstate && q.pid == e.pid

/-- Result of decode: a known table row with its field values, or the
`Unknown` variant for an id absent from the table. -/
inductive DecodedPacket where
  | known (e : PacketEntry) (vals : List FieldVal)
  | unknown
deriving DecidableEq, Repr

/-- The ordered wire types of a table row. -/
def fieldTypes (e : PacketEntry) : List FieldType :=
  e.fields.map fun f => f.ftype

/-- Encodes a packet body: each declared field in order. -/
def encodeFields : List FieldType → List FieldVal → Option (List ℕ)
  | [], [] => some []
  | t :: ts, v :: vs =>
    match encodeVal t v, encodeFields ts vs with
    | some b, some bs => some (b ++ bs)
    | _, _ => none
  | _, _ => none

/-- Decodes a packet body: each declared field in order. -/
def decodeFields : List FieldType → List ℕ → Option (List FieldVal × List ℕ)
  | [], bs => some ([], bs)
  | t :: ts, bs =>
    match decodeVal t bs with
    | some (v, r) => (decodeFields ts r).map fun q => (v :: q.1, q.2)
    | none => none

/-- Modelled from the spec: `decode(protocol_state, packet_id, body)`
(spec §4.1; the macro-generated `read` is in `packet_macros.rs`, not under
`src/`): looks the (state, id) pair up in the static table; if absent the
result is the `Unknown` variant (never a hard error); if present, reads
each declared field in order from the frame body. -/
def decodePacket (s : ℕ) (i : ℤ) (body : List ℕ) : Option DecodedPacket :=
  match tableLookup s i with
  | none => some .unknown
  | some e =>
    match decodeFields (fieldTypes e) body with
    | some (vs, []) => some (.known e vs)
    | _ => none

/-- Body bytes of a packet: its fields encoded in declaration order. -/
def encodePacketBody (e : PacketEntry) (vs : List FieldVal) : Option (List ℕ) :=
  encodeFields (fieldTypes e) vs

/-- Modelled from the spec: `encode` writes a frame that is length-prefixed
with a VarInt byte count covering the VarInt packet id and the field
bytes (spec §4.1/§6). -/
def encodeFrame (e : PacketEntry) (vs : List FieldVal) : Option (List ℕ) :=
  match encodePacketBody e vs with
  | some body =>
    if (((varIntBytes e.pid).length + body.length : ℕ) : ℤ) < 2 ^ 31 then
      some (varIntBytes (((varIntBytes e.pid).length + body.length : ℕ) : ℤ)
        ++ (varIntBytes e.pid ++ body))
    else none
  | none => none

/-- Modelled from the spec: frame decoding as driven by the connection loop
(`server.rs:44-59`): read the VarInt frame length, take that many bytes as
the frame, read the VarInt packet id, and decode the body against the
current protocol state; the remainder of the stream is returned. -/
def decodeFrame (s : ℕ) (bs : List ℕ) : Option (DecodedPacket × List ℕ) :=
  match decVarI32 bs with
  | some (len, r) =>
    if 0 ≤ len ∧ len.toNat ≤ r.length then
      match decVarI32 (r.take len.toNat) with
      | some (pid, body) => (decodePacket s pid body).map fun d => (d, r.drop len.toNat)
      | none => none
    else none
  | none => none

/-- The field values of a `DestroyEntities` packet whose entity-id list
holds the VarInt boundary values 0, 127, 128, 2097151 and -1 (the maximal
5-byte encoding). -/
def C5vals : List FieldVal :=
  [.varr [.vint 0, .vint 127, .vint 128, .vint 2097151, .vint (-1)]]

/-- The encoded frame of that packet. -/
def C5frame : List ℕ :=
  (encodeFrame entryDestroyEntities C5vals).getD []

/-- Two-shard router state with player connection 1 anchored remotely
(map index 1, proxy conn id 42). -/
def C8state : Patchwork :=
  { maps := crossingState.maps,
    player_anchors := [(1, { map_index := 1, conn_id := some 42 })] }

theorem position_map_index_spec {maps : List Map} {pos : Position} {i : ℕ}
    (h : position_map_index maps pos = some i) :
    ∃ hi : i < maps.length, (maps.get ⟨i, hi⟩).position = pos := by
  induction maps generalizing i with
  | nil => simp [position_map_index] at h
  | cons m rest ih =>
    by_cases hm : m.position = pos
    · simp [position_map_index, hm] at h
      subst h
      exact ⟨by simp, hm⟩
    · simp [position_map_index, hm] at h
      obtain ⟨j, hj, rfl⟩ := h
      obtain ⟨hlt, hget⟩ := ih hj
      exact ⟨by simpa using Nat.succ_lt_succ hlt, by simpa using hget⟩

theorem truncDiv16_eq_floor_of_nonneg {x : ℚ} (hx : 0 ≤ x) :
    truncDiv16 x = ⌊x / 16⌋ := by
  have hden : (0 : ℤ) < (x.den : ℤ) := by exact_mod_cast x.pos
  have hnum : 0 ≤ x.num := Rat.num_nonneg.mpr hx
  have h1 : truncDiv16 x = x.num / (16 * (x.den : ℤ)) := by
    unfold truncDiv16
    exact Int.tdiv_eq_ediv hnum (by positivity)
  have h2 : x / 16 = (x.num : ℚ) / ((16 * x.den : ℕ) : ℚ) := by
    conv_lhs => rw [← Rat.num_div_den x]
    push_cast
    ring
  rw [h1, h2, Rat.floor_intCast_div_natCast]
  push_cast
  ring_nf

theorem floor_div16_of_nonneg_lt {x : ℚ} (hx : 0 ≤ x) (hxs : x < 2 ^ 35) :
    satI32 (truncDiv16 x) = ⌊x / 16⌋ := by
  rw [truncDiv16_eq_floor_of_nonneg hx]
  have h0 : 0 ≤ ⌊x / 16⌋ := Int.floor_nonneg.mpr (by positivity)
  have h1 : ⌊x / 16⌋ < 2 ^ 31 := by
    rw [Int.floor_lt]
    rw [div_lt_iff₀ (by norm_num)]
    calc x < 2 ^ 35 := hxs
    _ = ((2 ^ 31 : ℤ) : ℚ) * 16 := by norm_num
  unfold satI32
  omega

/-- C1 counterexample: for the inbound `PlayerPosition` packet with
`x = -1.0, z = 0.0`, the code's `extract_map_position` computes grid cell
`(0, 0)` (truncation toward zero), while the claimed cell
`(floor(x/16), floor(z/16))` is `(-1, 0)`: the claim's "including for
negative coordinates" fails on the code. -/
theorem C1_trunc_vs_floor_counterexample :
    extract_map_position (Packet.PlayerPosition ⟨-1, 0, 0, false⟩)
        = some { x := 0, z := 0 }
      ∧ specCell (-1) 0 = { x := -1, z := 0 }
      ∧ ({ x := 0, z := 0 } : Position) ≠ { x := -1, z := 0 } := by
  refine ⟨by decide, ?_, by decide⟩
  have h : ⌊(-1 : ℚ) / 16⌋ = -1 := by
    rw [Int.floor_eq_iff]
    constructor <;> norm_num
  have h0 : ⌊(0 : ℚ) / 16⌋ = 0 := by norm_num
  simp [specCell, h, h0]

/-- C1 (amended): the grid cell the Router resolves against is
`(trunc(x/16), trunc(z/16))` — truncation toward zero, which agrees with
`(floor(x/16), floor(z/16))` for non-negative in-range coordinates but not
for negative ones — and, whenever the shard list has pairwise distinct grid
positions and resolution succeeds, the resolved shard is the unique shard
whose `position` equals that cell. Stated here for non-negative
coordinates, where the code's cell and the spec's floor cell coincide. -/
theorem C1_cell_resolution_amended (x y z : ℚ) (g : Bool) (maps : List Map) (i : ℕ)
    (hx : 0 ≤ x) (hz : 0 ≤ z) (hxs : x < 2 ^ 35) (hzs : z < 2 ^ 35)
    (huniq : ∀ i₁ : ℕ, ∀ h₁ : i₁ < maps.length, ∀ i₂ : ℕ, ∀ h₂ : i₂ < maps.length,
      (maps.get ⟨i₁, h₁⟩).position = (maps.get ⟨i₂, h₂⟩).position → i₁ = i₂)
    (hres : position_map_index maps (specCell x z) = some i) :
    extract_map_position (Packet.PlayerPosition ⟨x, y, z, g⟩) = some (specCell x z)
      ∧ ∃ hi : i < maps.length, (maps.get ⟨i, hi⟩).position = specCell x z
        ∧ ∀ j : ℕ, ∀ hj : j < maps.length,
            (maps.get ⟨j, hj⟩).position = specCell x z → j = i := by
  obtain ⟨hi, hget⟩ := position_map_index_spec hres
  refine ⟨?_, hi, hget, ?_⟩
  · simp only [extract_map_position, specCell,
      floor_div16_of_nonneg_lt hx hxs, floor_div16_of_nonneg_lt hz hzs]
  · intro j hj hgj
    exact huniq j hj i hi (by rw [hgj, hget])

theorem C1_cell_resolution_amended_witness :
    extract_map_position (Packet.PlayerPosition ⟨17, 64, 0, true⟩) = some (specCell 17 0)
      ∧ ∃ hi : 1 < C1maps.length, (C1maps.get ⟨1, hi⟩).position = specCell 17 0
        ∧ ∀ j : ℕ, ∀ hj : j < C1maps.length,
            (C1maps.get ⟨j, hj⟩).position = specCell 17 0 → j = 1 := by
  have hcell : specCell 17 0 = { x := 1, z := 0 } := by
    have h17 : ⌊(17 : ℚ) / 16⌋ = 1 := by
      rw [Int.floor_eq_iff]
      constructor <;> norm_num
    have h0 : ⌊(0 : ℚ) / 16⌋ = 0 := by norm_num
    simp [specCell, h17, h0]
  exact C1_cell_resolution_amended 17 64 0 true C1maps 1
    (by norm_num) (by norm_num) (by norm_num) (by norm_num)
    (by decide) (by rw [hcell]; decide)

theorem alistGet_alistPut {α : Type} (l : List (ℕ × α)) (k : ℕ) (v : α) :
    alistGet (alistPut l k v) k = some v := by
  induction l with
  | nil => simp [alistPut, alistGet, List.find?]
  | cons q rest ih =>
    by_cases hk : q.1 = k
    · simp [alistPut, hk, alistGet, List.find?]
    · simpa [alistPut, hk, alistGet, List.find?, Ne.symm hk] using ih

theorem mem_alistPut {α : Type} {l : List (ℕ × α)} {k : ℕ} {v : α} {p : ℕ × α}
    (h : p ∈ alistPut l k v) : p ∈ l ∨ p = (k, v) := by
  induction l with
  | nil => simpa [alistPut] using h
  | cons q rest ih =>
    by_cases hk : q.1 = k
    · simp [alistPut, hk] at h
      rcases h with h | h
      · exact Or.inr h
      · exact Or.inl (List.mem_cons_of_mem _ h)
    · simp [alistPut, hk] at h
      rcases h with h | h
      · exact Or.inl (by simp [h])
      · rcases ih h with h' | h'
        · exact Or.inl (List.mem_cons_of_mem _ h')
        · exact Or.inr h'

theorem messenger_translation_state_zero {ms : MessengerState}
    (hms : MessengerReachable ms) : ∀ p ∈ ms.translation_data, p.2.state = 0 := by
  induction hms with
  | init => simp [MessengerState.initial]
  | step hprev ih =>
    rename_i ms' op
    cases op with
    | send c pkt =>
      intro p hp
      apply ih
      by_cases hc : ms'.connection_map.contains c
      · simp only [messengerStep, hc, if_true] at hp
        cases halist : alistGet ms'.translation_data c with
        | none => rw [halist] at hp; exact hp
        | some ti => rw [halist] at hp; exact hp
      · simp only [messengerStep, hc, if_false] at hp; exact hp
    | broadcast pkt src localFlag => exact ih
    | subscribeAll c => exact ih
    | subscribeLocalOnly c => exact ih
    | newConn c => exact ih
    | updateTranslation c map =>
      intro p hp
      simp only [messengerStep] at hp
      rcases mem_alistPut hp with h | h
      · exact ih p h
      · rw [h]

/-- C2 counterexample: with connection 7 registered and subscribed only to
the local-only set, `Broadcast` with `source_conn_id = Some(7)` and the
local flag set writes the packet back to connection 7: the local-only loop
of the Broadcast arm performs no source exclusion. -/
theorem C2_broadcast_source_counterexample :
    (7, Packet.KeepAlive { id := 1 }) ∈
      broadcastWrites C2ms (Packet.KeepAlive { id := 1 }) (some 7) true := by
  decide

/-- C2 (amended): a Broadcast with `source_conn_id = Some(c)` never writes
to `c` through the `all` subscriber set; the only way `c` receives its own
broadcast is when the local flag is set and `c` is a member of the
`local-only` set, whose delivery loop does not exclude the source. -/
theorem C2_broadcast_source_amended (ms : MessengerState) (pkt q : Packet) (c : ℕ)
    (localFlag : Bool)
    (hq : (c, q) ∈ broadcastWrites ms pkt (some c) localFlag) :
    localFlag = true ∧ c ∈ ms.local_only_broadcast_list := by
  have hall : (c, q) ∉
      ((ms.all_broadcast_list.filter fun a =>
          (match (some c : Option ℕ) with
           | none => true
           | some s => decide (s ≠ a)) && ms.connection_map.contains a).map
        fun a => (a, pkt)) := by
    intro hmem
    simp only [List.mem_map, List.mem_filter, Bool.and_eq_true, decide_eq_true_eq] at hmem
    obtain ⟨a, ⟨_, hne, _⟩, heq⟩ := hmem
    have : a = c := congrArg Prod.fst heq
    exact hne (this.symm)
  cases localFlag with
  | false =>
    exfalso
    simp only [broadcastWrites, Bool.false_eq_true, if_false, List.append_nil] at hq
    exact hall hq
  | true =>
    refine ⟨rfl, ?_⟩
    simp only [broadcastWrites, if_true] at hq
    rcases List.mem_append.mp hq with h | h
    · exact absurd h hall
    · simp only [List.mem_map, List.mem_filter] at h
      obtain ⟨a, ⟨ha, _⟩, heq⟩ := h
      have : a = c := congrArg Prod.fst heq
      exact this ▸ ha

theorem C2_broadcast_source_amended_witness :
    (7, Packet.KeepAlive { id := 1 }) ∈
      broadcastWrites C2ms (Packet.KeepAlive { id := 1 }) (some 7) true
      ∧ true = true
      ∧ 7 ∈ C2ms.local_only_broadcast_list := by
  have hmem : (7, Packet.KeepAlive { id := 1 }) ∈
      broadcastWrites C2ms (Packet.KeepAlive { id := 1 }) (some 7) true := by decide
  exact ⟨hmem,
    (C2_broadcast_source_amended _ _ _ 7 true hmem).1,
    (C2_broadcast_source_amended _ _ _ 7 true hmem).2⟩

/-- C10: the `UpdateTranslation` arm unconditionally installs a
`TranslationInfo` with protocol-state field 0 (discarding any previous
entry for that conn id), and consequently every `TranslationInfo` held by
the Messenger in any reachable state has state 0. -/
theorem C10_translation_state_zero (ms : MessengerState) (c : ℕ) (map : Map)
    (hms : MessengerReachable ms) :
    alistGet (messengerStep ms (.updateTranslation c map)).1.translation_data c
        = some { state := 0, map := map }
      ∧ ∀ p ∈ ms.translation_data, p.2.state = 0 := by
  constructor
  · simp only [messengerStep]
    exact alistGet_alistPut _ _ _
  · exact messenger_translation_state_zero hms

theorem C10_translation_state_zero_witness :
    alistGet (messengerStep MessengerState.initial
        (.updateTranslation 3 (Map.new { x := 1, z := 0 } 0))).1.translation_data 3
        = some { state := 0, map := Map.new { x := 1, z := 0 } 0 }
      ∧ ∀ p ∈ MessengerState.initial.translation_data, p.2.state = 0 :=
  C10_translation_state_zero MessengerState.initial 3 (Map.new { x := 1, z := 0 } 0)
    MessengerReachable.init

/-- C6: applying `translate_outgoing` with target B from frame A and then
with target A from frame B reproduces the original packet exactly, for
every packet (in particular every packet carrying positional fields); and
a packet whose kind has no position-bearing semantic role is returned
unchanged by any single application. -/
theorem C6_translate_roundtrip (p : Packet) (a b : Position) (t : TranslationInfo) :
    translate_outgoing (translate_outgoing p a (transInfoFor b)) b (transInfoFor a) = p
      ∧ (hasPositionalRole p = false → translate_outgoing p a t = p) := by
  constructor
  · cases p <;>
      first
        | rfl
        | (rename_i q
           cases q
           simp only [translate_outgoing, transInfoFor, Map.new]
           congr 1
           push_cast
           ring_nf)
  · intro h
    cases p <;> first | rfl | simp [hasPositionalRole] at h

theorem C6_translate_roundtrip_witness :
    translate_outgoing
        (translate_outgoing (Packet.KeepAlive { id := 5 }) { x := 0, z := 0 }
          (transInfoFor { x := 1, z := 0 }))
        { x := 1, z := 0 } (transInfoFor { x := 0, z := 0 })
      = Packet.KeepAlive { id := 5 }
      ∧ (hasPositionalRole (Packet.KeepAlive { id := 5 }) = false →
          translate_outgoing (Packet.KeepAlive { id := 5 }) { x := 0, z := 0 }
            (transInfoFor { x := 1, z := 0 }) = Packet.KeepAlive { id := 5 }) :=
  C6_translate_roundtrip (Packet.KeepAlive { id := 5 }) { x := 0, z := 0 }
    { x := 1, z := 0 } (transInfoFor { x := 1, z := 0 })

theorem routeThroughAnchor_ok {maps : List Map} {anchors : List (ℕ × Anchor)}
    {conn_id : ℕ} {pkt : Packet} {anchor : Anchor} {eff : RouteEffects}
    {st' : Patchwork} {eff' : RouteEffects}
    (h : routeThroughAnchor maps anchors conn_id pkt anchor eff = .ok st' eff') :
    st' = { maps := maps, player_anchors := anchors } := by
  unfold routeThroughAnchor at h
  cases hidx : maps[anchor.map_index]? with
  | none => simp [hidx] at h
  | some m =>
    simp only [hidx] at h
    cases hpeer : m.peer_connection with
    | none =>
      simp only [hpeer] at h
      cases h
      rfl
    | some peer =>
      simp only [hpeer] at h
      split at h
      · cases h; rfl
      · cases hcid : anchor.conn_id with
        | none => simp [hcid] at h
        | some pc => simp only [hcid] at h; cases h; rfl

theorem position_map_index_lt {maps : List Map} {pos : Position} {i : ℕ}
    (h : position_map_index maps pos = some i) : i < maps.length :=
  (position_map_index_spec h).choose

theorem routeThroughAnchor_panic_oob {maps : List Map} {anchors : List (ℕ × Anchor)}
    {conn_id : ℕ} {pkt : Packet} {anchor : Anchor} {eff : RouteEffects}
    (h : routeThroughAnchor maps anchors conn_id pkt anchor eff
        = .panic .indexOutOfBounds) :
    maps.length ≤ anchor.map_index := by
  unfold routeThroughAnchor at h
  cases hidx : maps[anchor.map_index]? with
  | none => exact List.getElem?_eq_none_iff.mp hidx
  | some m =>
    simp only [hidx] at h
    cases hpeer : m.peer_connection with
    | none => simp [hpeer] at h
    | some peer =>
      simp only [hpeer] at h
      split at h
      · simp at h
      · cases hcid : anchor.conn_id with
        | none => simp [hcid] at h
        | some pc => simp [hcid] at h

theorem routePlayerPacket_ok_shape {st : Patchwork} {c : ℕ} {pkt : Packet}
    {ok : Bool} {fid : ℕ} {st' : Patchwork} {eff : RouteEffects}
    (h : routePlayerPacket st c pkt ok fid = RouteResult.ok st' eff) :
    st'.maps = st.maps
      ∧ ∀ p ∈ st'.player_anchors,
          p ∈ st.player_anchors ∨ p.2.map_index = 0
            ∨ p.2.map_index < st.maps.length := by
  have hanchors1 : ∀ p ∈ (if (alistGet st.player_anchors c).isSome then st.player_anchors
      else st.player_anchors ++ [(c, ({ map_index := 0, conn_id := none } : Anchor))]),
      p ∈ st.player_anchors ∨ p.2.map_index = 0 ∨ p.2.map_index < st.maps.length := by
    intro p hp
    split at hp
    · exact Or.inl hp
    · rcases List.mem_append.mp hp with h' | h'
      · exact Or.inl h'
      · simp at h'
        subst h'
        exact Or.inr (Or.inl rfl)
  simp only [routePlayerPacket] at h
  cases hext : extract_map_position pkt with
  | none =>
    simp only [hext] at h
    obtain rfl := routeThroughAnchor_ok h
    exact ⟨rfl, hanchors1⟩
  | some pos =>
    simp only [hext] at h
    cases hpmi : position_map_index st.maps pos with
    | none => simp [hpmi] at h
    | some idx =>
      simp only [hpmi] at h
      have hidx := position_map_index_lt hpmi
      by_cases hsame : idx = ((alistGet st.player_anchors c).getD
          { map_index := 0, conn_id := none }).map_index
      · rw [if_pos hsame] at h
        obtain rfl := routeThroughAnchor_ok h
        exact ⟨rfl, hanchors1⟩
      · rw [if_neg hsame] at h
        cases hm : st.maps[idx]? with
        | none =>
          rw [List.getElem?_eq_none_iff] at hm
          omega
        | some m =>
          simp only [hm] at h
          cases hpeer : m.peer_connection with
          | some peer =>
            simp only [hpeer] at h
            cases ok with
            | false => simp [Anchor.connect] at h
            | true =>
              simp only [Anchor.connect, if_pos] at h
              obtain rfl := routeThroughAnchor_ok h
              refine ⟨rfl, ?_⟩
              intro p hp
              rcases mem_alistPut hp with h' | h'
              · exact hanchors1 p h'
              · subst h'
                exact Or.inr (Or.inr hidx)
          | none =>
            simp only [hpeer] at h
            obtain rfl := routeThroughAnchor_ok h
            refine ⟨rfl, ?_⟩
            intro p hp
            rcases mem_alistPut hp with h' | h'
            · exact hanchors1 p h'
            · subst h'
              exact Or.inr (Or.inr hidx)

theorem reachable_inv {st : Patchwork} (h : Reachable st) :
    st.maps ≠ [] ∧ ∀ p ∈ st.player_anchors, p.2.map_index < st.maps.length := by
  induction h with
  | init => simp [Patchwork.new, create_local_map]
  | step hprev hstep ih =>
    rename_i st₀ st₁ op
    cases op with
    | newMap peer ok =>
      simp only [patchworkStep] at hstep
      cases hstep
      unfold add_peer_map
      split
      · refine ⟨by simp [ih.1], ?_⟩
        intro p hp
        have := ih.2 p hp
        simp only [List.length_append, List.length_cons, List.length_nil]
        omega
      · exact ih
    | route c pkt ok fid =>
      simp only [patchworkStep] at hstep
      cases hroute : routePlayerPacket st₀ c pkt ok fid with
      | panic k => simp [hroute] at hstep
      | ok stR effR =>
        simp only [hroute] at hstep
        cases hstep
        obtain ⟨hmaps, hanch⟩ := routePlayerPacket_ok_shape hroute
        refine ⟨by rw [hmaps]; exact ih.1, ?_⟩
        intro p hp
        rw [hmaps]
        rcases hanch p hp with h' | h' | h'
        · exact ih.2 p h'
        · rw [h']
          exact List.length_pos.mpr ih.1
        · exact h'
    | report =>
      simp only [patchworkStep] at hstep
      cases hstep
      exact ih

/-- C9: in every router state reachable from initialization by any sequence
of `New`, `RoutePlayerPacket` and `Report` operations, the shard list is
non-empty, every anchor's `map_index` is a valid index into the shard list,
and no routing step can fail its `maps[...]` indexing: neither the
`patchwork.maps[new_map_index]` lookup nor the
`patchwork.maps[anchor.map_index]` lookup goes out of bounds. -/
theorem C9_no_out_of_bounds (st : Patchwork) (h : Reachable st) :
    st.maps ≠ []
      ∧ (∀ p ∈ st.player_anchors, p.2.map_index < st.maps.length)
      ∧ ∀ c : ℕ, ∀ pkt : Packet, ∀ ok : Bool, ∀ fid : ℕ,
          routePlayerPacket st c pkt ok fid ≠ .panic .indexOutOfBounds := by
  obtain ⟨hne, hinv⟩ := reachable_inv h
  refine ⟨hne, hinv, ?_⟩
  intro c pkt ok fid hcontra
  have hanchor0 : ((alistGet st.player_anchors c).getD
      { map_index := 0, conn_id := none }).map_index < st.maps.length := by
    cases hga : alistGet st.player_anchors c with
    | none => simpa using List.length_pos.mpr hne
    | some a =>
      simp only [Option.getD_some]
      unfold alistGet at hga
      cases hf : st.player_anchors.find? fun q => q.1 == c with
      | none => rw [hf] at hga; simp at hga
      | some q =>
        rw [hf] at hga
        simp at hga
        subst hga
        exact hinv q (List.mem_of_find?_eq_some hf)
  simp only [routePlayerPacket] at hcontra
  cases hext : extract_map_position pkt with
  | none =>
    simp only [hext] at hcontra
    exact absurd (routeThroughAnchor_panic_oob hcontra) (by omega)
  | some pos =>
    simp only [hext] at hcontra
    cases hpmi : position_map_index st.maps pos with
    | none => simp [hpmi] at hcontra
    | some idx =>
      simp only [hpmi] at hcontra
      have hidx := position_map_index_lt hpmi
      by_cases hsame : idx = ((alistGet st.player_anchors c).getD
          { map_index := 0, conn_id := none }).map_index
      · rw [if_pos hsame] at hcontra
        exact absurd (routeThroughAnchor_panic_oob hcontra) (by omega)
      · rw [if_neg hsame] at hcontra
        cases hm : st.maps[idx]? with
        | none =>
          rw [List.getElem?_eq_none_iff] at hm
          omega
        | some m =>
          simp only [hm] at hcontra
          cases hpeer : m.peer_connection with
          | some peer =>
            simp only [hpeer] at hcontra
            cases ok with
            | false => simp [Anchor.connect] at hcontra
            | true =>
              simp only [Anchor.connect, if_pos] at hcontra
              exact absurd (routeThroughAnchor_panic_oob hcontra) (by simp; omega)
          | none =>
            simp only [hpeer] at hcontra
            exact absurd (routeThroughAnchor_panic_oob hcontra) (by simp; omega)

theorem C9_no_out_of_bounds_witness :
    Patchwork.new.maps ≠ []
      ∧ (∀ p ∈ Patchwork.new.player_anchors, p.2.map_index < Patchwork.new.maps.length)
      ∧ ∀ c : ℕ, ∀ pkt : Packet, ∀ ok : Bool, ∀ fid : ℕ,
          routePlayerPacket Patchwork.new c pkt ok fid ≠ .panic .indexOutOfBounds :=
  C9_no_out_of_bounds Patchwork.new Reachable.init

/-- C3 counterexample: in the two-shard state, routing the border-crossing
packet when the peer connection cannot be opened makes the routing step
panic (the `Anchor::connect(...).unwrap()`), so the failure terminates the
Patchwork Router thread instead of aborting only that crossing. -/
theorem C3_connect_failure_counterexample :
    routePlayerPacket crossingState 1 crossingPacket false 9
      = .panic .connectFailed := by
  decide

/-- C3 (amended): when opening the outbound connection to the target
shard's peer fails during a border crossing, the crossing performs no
retry, installs no translation, emits no message, and leaves the anchor
table unwritten — but the failure is not contained: the `.unwrap()` on
`Anchor::connect`'s `io::Error` panics, terminating the Patchwork Router
loop (the step produces no successor state). -/
theorem C3_connect_failure_amended (st : Patchwork) (c : ℕ) (pkt : Packet)
    (fid : ℕ) (pos : Position) (idx : ℕ) (m : Map) (peer : Peer)
    (hext : extract_map_position pkt = some pos)
    (hpmi : position_map_index st.maps pos = some idx)
    (hdiff : idx ≠ ((alistGet st.player_anchors c).getD
        { map_index := 0, conn_id := none }).map_index)
    (hm : st.maps[idx]? = some m)
    (hpeer : m.peer_connection = some peer) :
    routePlayerPacket st c pkt false fid = .panic .connectFailed
      ∧ patchworkStep st (.route c pkt false fid) = none := by
  have h1 : routePlayerPacket st c pkt false fid = .panic .connectFailed := by
    simp [routePlayerPacket, hext, hpmi, if_neg hdiff, hm, hpeer, Anchor.connect]
  exact ⟨h1, by simp [patchworkStep, h1]⟩

theorem C3_connect_failure_amended_witness :
    routePlayerPacket crossingState 1 crossingPacket false 9 = .panic .connectFailed
      ∧ patchworkStep crossingState (.route 1 crossingPacket false 9) = none :=
  C3_connect_failure_amended crossingState 1 crossingPacket 9 { x := 1, z := 0 } 1
    { position := { x := 1, z := 0 }, entity_id_block := 1,
      peer_connection := some { address := "peer", port := 25565 } }
    { address := "peer", port := 25565 }
    (by decide) (by decide) (by decide) (by decide) (by decide)

/-- C7: in the two-shard state (local (0,0) with anchored player, remote
(1,0)), routing `PlayerPosition x=17.0 z=0.0` for connection 1 with fresh
proxy id 42 succeeds, registers exactly one new proxy connection with the
Messenger, installs exactly one TranslationInfo — for conn 42, targeting
grid (1,0) — and re-anchors the player to the remote anchor (map index 1,
proxy conn id 42). -/
theorem C7_border_crossing :
    ∃ st' : Patchwork, ∃ eff : RouteEffects,
      routePlayerPacket crossingState 1 crossingPacket true 42 = .ok st' eff
        ∧ countNewConns eff.messenger = 1
        ∧ translationInstalls eff.messenger = [(42, Map.new { x := 1, z := 0 } 0)]
        ∧ alistGet st'.player_anchors 1 = some { map_index := 1, conn_id := some 42 } := by
  refine ⟨{ maps := crossingState.maps,
            player_anchors := [(1, { map_index := 1, conn_id := some 42 })] },
          { messenger :=
              [.newConn 42,
               .updateTranslation 42 (Map.new { x := 1, z := 0 } 0),
               .send 42 handshakePacket,
               .send 42 crossingPacket],
            player := [.crossBorder 1 42],
            gameplay := [] }, ?_, ?_, ?_, ?_⟩ <;> decide

theorem reachable_entity_blocks {st : Patchwork} (h : Reachable st) :
    ∀ k : ℕ, ∀ m : Map, st.maps[k]? = some m → m.entity_id_block = (k : ℤ) := by
  induction h with
  | init =>
    intro k m hk
    cases k with
    | zero =>
      simp [Patchwork.new, create_local_map, Map.new, next_entity_id_block] at hk
      rw [← hk]
      simp
    | succ k' => simp [Patchwork.new, create_local_map] at hk
  | step hprev hstep ih =>
    rename_i st₀ st₁ op
    cases op with
    | newMap peer ok =>
      simp only [patchworkStep] at hstep
      cases hstep
      intro k m hk
      by_cases hok : ok = true
      · simp only [add_peer_map, if_pos hok] at hk
        by_cases hklt : k < st₀.maps.length
        · rw [List.getElem?_append_left hklt] at hk
          exact ih k m hk
        · rw [List.getElem?_append_right (by omega)] at hk
          have hzero : k - st₀.maps.length = 0 := by
            by_contra hnz
            rw [List.getElem?_eq_none_iff.mpr (by simp; omega)] at hk
            exact Option.noConfusion hk
          rw [hzero] at hk
          simp only [List.getElem?_cons_zero, Option.some.injEq] at hk
          have hkeq : k = st₀.maps.length := by omega
          rw [← hk, hkeq]
          rfl
      · simp only [add_peer_map, if_neg hok] at hk
        exact ih k m hk
    | route c pkt ok fid =>
      simp only [patchworkStep] at hstep
      cases hroute : routePlayerPacket st₀ c pkt ok fid with
      | panic k => simp [hroute] at hstep
      | ok stR effR =>
        simp only [hroute] at hstep
        cases hstep
        have hmaps := (routePlayerPacket_ok_shape hroute).1
        rw [hmaps]
        exact ih
    | report =>
      simp only [patchworkStep] at hstep
      cases hstep
      exact ih

/-- C4: in every reachable router state, the k-th appended shard carries
entity id block index k, whose id range is exactly `[k*1000, (k+1)*1000)`
(with `ENTITY_ID_BLOCK_SIZE = 1000`), and the id ranges of two distinct
shards are disjoint. -/
theorem C4_entity_id_blocks (st : Patchwork) (h : Reachable st)
    (k j : ℕ) (mk mj : Map)
    (hk : st.maps[k]? = some mk) (hj : st.maps[j]? = some mj) (hne : j ≠ k) :
    (∀ id : ℤ, inEntityIdBlock mk id ↔
        (k : ℤ) * 1000 ≤ id ∧ id < ((k : ℤ) + 1) * 1000)
      ∧ ∀ id : ℤ, inEntityIdBlock mk id → ¬ inEntityIdBlock mj id := by
  have hbk := reachable_entity_blocks h k mk hk
  have hbj := reachable_entity_blocks h j mj hj
  constructor
  · intro id
    unfold inEntityIdBlock
    rw [hbk]
  · intro id h1 h2
    unfold inEntityIdBlock at h1 h2
    rw [hbk] at h1
    rw [hbj] at h2
    have hji : (j : ℤ) ≠ (k : ℤ) := by exact_mod_cast hne
    omega

theorem C4_entity_id_blocks_witness :
    (∀ id : ℤ, inEntityIdBlock C4mapRemote id ↔
        ((1 : ℕ) : ℤ) * 1000 ≤ id ∧ id < (((1 : ℕ) : ℤ) + 1) * 1000)
      ∧ ∀ id : ℤ, inEntityIdBlock C4mapRemote id →
          ¬ inEntityIdBlock (Map.new { x := 0, z := 0 } 0) id :=
  C4_entity_id_blocks C4state
    (@Reachable.step Patchwork.new C4state
      (PatchworkOp.newMap { address := "peer", port := 25565 } true)
      Reachable.init (by decide))
    1 0 C4mapRemote (Map.new { x := 0, z := 0 } 0)
    (by decide) (by decide) (by decide)

theorem decVarU_encVarUAux (k : ℕ) :
    ∀ n : ℕ, n < 128 ^ (k + 1) → ∀ rest : List ℕ,
      decVarU (k + 1) (encVarUAux (k + 1) n ++ rest) = some (n, rest) := by
  induction k with
  | zero =>
    intro n hn rest
    have h : n < 128 := by simpa using hn
    simp [encVarUAux, decVarU, h]
  | succ k ih =>
    intro n hn rest
    by_cases h : n < 128
    · simp [encVarUAux, decVarU, h]
    · have hdiv : n / 128 < 128 ^ (k + 1) := by
        rw [Nat.div_lt_iff_lt_mul (by omega)]
        calc n < 128 ^ (k + 1 + 1) := hn
        _ = 128 ^ (k + 1) * 128 := by rw [pow_succ]
      rw [show encVarUAux (k + 1 + 1) n
          = (n % 128 + 128) :: encVarUAux (k + 1) (n / 128) by
        rw [encVarUAux, if_neg h]]
      simp only [List.cons_append]
      rw [decVarU, if_neg (by omega)]
      rw [ih (n / 128) hdiv rest]
      simp only [Option.some.injEq, Prod.mk.injEq]
      refine ⟨?_, by trivial⟩
      omega

theorem decVarU_encVarU {n : ℕ} (hn : n < 2 ^ 32) (rest : List ℕ) :
    decVarU 5 (encVarU n ++ rest) = some (n, rest) := by
  have h : n < 128 ^ 5 := by
    calc n < 2 ^ 32 := hn
    _ ≤ 128 ^ 5 := by norm_num
  exact decVarU_encVarUAux 4 n h rest

theorem decVarI32_varIntBytes {v : ℤ} (h1 : -(2 ^ 31) ≤ v) (h2 : v < 2 ^ 31)
    (rest : List ℕ) : decVarI32 (varIntBytes v ++ rest) = some (v, rest) := by
  have hm1 : 0 ≤ v % (2 ^ 32 : ℤ) := Int.emod_nonneg v (by norm_num)
  have hm2 : v % (2 ^ 32 : ℤ) < 2 ^ 32 := Int.emod_lt_of_pos v (by norm_num)
  have hmod : v % (2 ^ 32 : ℤ) = if 0 ≤ v then v else v + 2 ^ 32 := by
    split <;> omega
  have hlt : (v % (2 ^ 32 : ℤ)).toNat < 2 ^ 32 := by omega
  unfold decVarI32 varIntBytes
  rw [decVarU_encVarU hlt rest]
  simp only [Option.some.injEq, Prod.mk.injEq]
  refine ⟨?_, by trivial⟩
  split <;> omega

theorem readBE_beBytes : ∀ w n, n < 256 ^ w → ∀ rest : List ℕ,
    readBE w (beBytes w n ++ rest) = some (n, rest) := by
  intro w
  induction w with
  | zero =>
    intro n hn rest
    have : n = 0 := by simpa using hn
    subst this
    simp [beBytes, readBE]
  | succ w ih =>
    intro n hn rest
    rw [beBytes]
    simp only [List.cons_append]
    rw [readBE]
    rw [ih (n % 256 ^ w) (Nat.mod_lt _ (by positivity)) rest]
    simp only [Option.some.injEq, Prod.mk.injEq]
    refine ⟨?_, by trivial⟩
    have := Nat.div_add_mod n (256 ^ w)
    nlinarith [this]

theorem decSigned_encSigned {w : ℕ} (hw : 0 < w) {v : ℤ}
    (h1 : -(2 ^ (8 * w - 1)) ≤ v) (h2 : v < 2 ^ (8 * w - 1)) (rest : List ℕ) :
    decSigned w (encSigned w v ++ rest) = some (v, rest) := by
  have hMH : (2 : ℤ) ^ (8 * w) = 2 * 2 ^ (8 * w - 1) := by
    conv_lhs => rw [show 8 * w = (8 * w - 1) + 1 by omega]
    rw [pow_succ]
    ring
  have hpos : (0 : ℤ) < 2 ^ (8 * w) := by positivity
  have hm1 : 0 ≤ v % ((2 : ℤ) ^ (8 * w)) := Int.emod_nonneg v (by omega)
  have hm2 : v % ((2 : ℤ) ^ (8 * w)) < 2 ^ (8 * w) := Int.emod_lt_of_pos v hpos
  have hhalf : (0 : ℤ) < 2 ^ (8 * w - 1) := by positivity
  have hmod : v % ((2 : ℤ) ^ (8 * w)) = if 0 ≤ v then v else v + 2 ^ (8 * w) := by
    split
    · exact Int.emod_eq_of_lt (by assumption) (by omega)
    · rename_i hneg
      conv_lhs => rw [show v = (v + 2 ^ (8 * w)) + 2 ^ (8 * w) * (-1) by ring]
      rw [Int.add_mul_emod_self_left]
      exact Int.emod_eq_of_lt (by omega) (by omega)
  have hcast : ((256 ^ w : ℕ) : ℤ) = (2 : ℤ) ^ (8 * w) := by
    push_cast
    rw [show ((256 : ℤ)) = 2 ^ 8 by norm_num, ← pow_mul]
  have hlt : (v % ((2 : ℤ) ^ (8 * w))).toNat < 256 ^ w := by omega
  unfold decSigned encSigned
  rw [readBE_beBytes w _ hlt rest]
  simp only [Option.some.injEq, Prod.mk.injEq]
  refine ⟨?_, by trivial⟩
  split <;> omega

theorem readBytesN_exact (l rest : List ℕ) :
    readBytesN l.length (l ++ rest) = some (l, rest) := by
  unfold readBytesN
  rw [if_pos (by simp)]
  rw [List.take_left, List.drop_left]

theorem neg_two_pow_le_natCast (k n : ℕ) : -((2 : ℤ) ^ k) ≤ (n : ℤ) :=
  le_trans (neg_nonpos.mpr (by positivity)) (Int.natCast_nonneg n)

theorem decodePrim_encodePrim {t : PrimType} {v : PrimVal} {bs : List ℕ}
    (h : encodePrim t v = some bs) (rest : List ℕ) :
    decodePrim t (bs ++ rest) = some (v, rest) := by
  cases t with
  | varInt =>
    cases v <;> simp [encodePrim] at h
    obtain ⟨⟨h1, h2⟩, rfl⟩ := h
    simp only [decodePrim]
    rw [decVarI32_varIntBytes h1 h2 rest]
    rfl
  | uShort =>
    cases v <;> simp [encodePrim] at h
    obtain ⟨h1, rfl⟩ := h
    simp only [decodePrim]
    rw [readBE_beBytes 2 _ h1 rest]
    rfl
  | long =>
    cases v <;> simp [encodePrim] at h
    obtain ⟨⟨h1, h2⟩, rfl⟩ := h
    simp only [decodePrim]
    rw [decSigned_encSigned (by norm_num) (by simpa using h1) (by simpa using h2) rest]
    rfl
  | double =>
    cases v <;> simp [encodePrim] at h
    obtain ⟨h1, rfl⟩ := h
    simp only [decodePrim]
    rw [readBE_beBytes 8 _ h1 rest]
    rfl
  | float =>
    cases v <;> simp [encodePrim] at h
    obtain ⟨h1, rfl⟩ := h
    simp only [decodePrim]
    rw [readBE_beBytes 4 _ h1 rest]
    rfl
  | boolean =>
    cases v with
    | vint v => simp [encodePrim] at h
    | vnat v => simp [encodePrim] at h
    | vstr v => simp [encodePrim] at h
    | vbool b =>
      simp only [encodePrim, Option.some.injEq] at h
      subst h
      cases b <;> simp [decodePrim]
  | uByte =>
    cases v <;> simp [encodePrim] at h
    obtain ⟨h1, rfl⟩ := h
    simp only [decodePrim]
    rw [readBE_beBytes 1 _ h1 rest]
    rfl
  | byte =>
    cases v <;> simp [encodePrim] at h
    obtain ⟨⟨h1, h2⟩, rfl⟩ := h
    simp only [decodePrim]
    rw [decSigned_encSigned (by norm_num) (by simpa using h1) (by simpa using h2) rest]
    rfl
  | short =>
    cases v <;> simp [encodePrim] at h
    obtain ⟨⟨h1, h2⟩, rfl⟩ := h
    simp only [decodePrim]
    rw [decSigned_encSigned (by norm_num) (by simpa using h1) (by simpa using h2) rest]
    rfl
  | int =>
    cases v <;> simp [encodePrim] at h
    obtain ⟨⟨h1, h2⟩, rfl⟩ := h
    simp only [decodePrim]
    rw [decSigned_encSigned (by norm_num) (by simpa using h1) (by simpa using h2) rest]
    rfl
  | u128 =>
    cases v <;> simp [encodePrim] at h
    obtain ⟨h1, rfl⟩ := h
    simp only [decodePrim]
    rw [readBE_beBytes 16 _ h1 rest]
    rfl
  | str =>
    cases v <;> simp [encodePrim] at h
    rename_i bytes
    obtain ⟨h1, rfl⟩ := h
    have e1 := decVarI32_varIntBytes (neg_two_pow_le_natCast 31 bytes.length)
      (by exact_mod_cast h1) (bytes ++ rest)
    have e2 := readBytesN_exact bytes rest
    simp [decodePrim, e1, e2, Int.toNat_natCast]

theorem decodePrimList_encodePrimList {t : PrimType} {vs : List PrimVal} {bs : List ℕ}
    (h : encodePrimList t vs = some bs) (rest : List ℕ) :
    decodePrimList t vs.length (bs ++ rest) = some (vs, rest) := by
  induction vs generalizing bs with
  | nil =>
    simp [encodePrimList] at h
    subst h
    simp [decodePrimList]
  | cons v vs ih =>
    simp only [encodePrimList] at h
    cases hv : encodePrim t v with
    | none => rw [hv] at h; simp at h
    | some b =>
      cases hvs : encodePrimList t vs with
      | none => rw [hv, hvs] at h; simp at h
      | some bsr =>
        rw [hv, hvs] at h
        simp only [Option.some.injEq] at h
        subst h
        have h1 := decodePrim_encodePrim hv (bsr ++ rest)
        have h2 := ih hvs
        simp [decodePrimList, List.append_assoc, h1, h2]

theorem decVarIntList_encVarIntList {vs : List ℤ} {bs : List ℕ}
    (h : encVarIntList vs = some bs) (rest : List ℕ) :
    decVarIntList vs.length (bs ++ rest) = some (vs, rest) := by
  induction vs generalizing bs with
  | nil =>
    simp [encVarIntList] at h
    subst h
    simp [decVarIntList]
  | cons v vs ih =>
    simp only [encVarIntList] at h
    split at h
    · rename_i hcond
      cases hvs : encVarIntList vs with
      | none => rw [hvs] at h; simp at h
      | some bsr =>
        rw [hvs] at h
        simp at h
        subst h
        have h1 := decVarI32_varIntBytes hcond.1 hcond.2 (bsr ++ rest)
        have h2 := ih hvs
        simp [decVarIntList, List.append_assoc, h1, h2]
    · simp at h

theorem decodeChunk_encodeChunk {cs : ChunkSection} {bs : List ℕ}
    (h : encodeChunk cs = some bs) (rest : List ℕ) :
    decodeChunk (bs ++ rest) = some (.vchunk cs, rest) := by
  unfold encodeChunk at h
  split at h
  · rename_i hcond
    obtain ⟨hbpb, ⟨hdal1, hdal2⟩, hnids, ⟨hnbl, hblb⟩, hnsl, hslb⟩ := hcond
    cases hids : encVarIntList cs.block_ids with
    | none => rw [hids] at h; simp at h
    | some ids =>
      rw [hids] at h
      simp at h
      subst h
      have e1 := fun r => decVarI32_varIntBytes hdal1 hdal2 r
      have e2 := fun r => decVarI32_varIntBytes
        (neg_two_pow_le_natCast 31 cs.block_ids.length) hnids r
      have e3 := fun r => decVarIntList_encVarIntList hids r
      have e4 := fun r => decVarI32_varIntBytes
        (neg_two_pow_le_natCast 31 cs.block_light.length) hnbl r
      have e5 := fun r => readBytesN_exact cs.block_light r
      have e6 := fun r => decVarI32_varIntBytes
        (neg_two_pow_le_natCast 31 cs.sky_light.length) hnsl r
      have e7 := fun r => readBytesN_exact cs.sky_light r
      simp [decodeChunk, List.cons_append, List.append_assoc,
        e1, e2, e3, e4, e5, e6, e7, Int.toNat_natCast, Int.natCast_nonneg]
  · simp at h

theorem decodeVal_encodeVal {t : FieldType} {v : FieldVal} {bs : List ℕ}
    (h : encodeVal t v = some bs) (rest : List ℕ) :
    decodeVal t (bs ++ rest) = some (v, rest) := by
  cases t with
  | prim pt =>
    cases v <;> simp only [encodeVal, reduceCtorEq] at h
    have h1 := decodePrim_encodePrim h rest
    simp [decodeVal, h1]
  | chunkSection =>
    cases v <;> simp only [encodeVal, reduceCtorEq] at h
    simp only [decodeVal]
    exact decodeChunk_encodeChunk h rest
  | arrayFixed pt n =>
    cases v <;> simp only [encodeVal, reduceCtorEq] at h
    rename_i vs
    rw [Option.ite_none_right_eq_some] at h
    obtain ⟨hlen, henc⟩ := h
    subst hlen
    have h1 := decodePrimList_encodePrimList henc rest
    simp [decodeVal, h1]
  | lengthPrefixedArray pt =>
    cases v <;> simp only [encodeVal, reduceCtorEq] at h
    rename_i vs
    split at h
    · rename_i hlen
      cases hvs : encodePrimList pt vs with
      | none => rw [hvs] at h; simp at h
      | some bsr =>
        rw [hvs] at h
        simp at h
        subst h
        have h1 := decVarI32_varIntBytes
          (neg_two_pow_le_natCast 31 vs.length) hlen (bsr ++ rest)
        have h2 := decodePrimList_encodePrimList hvs rest
        simp [decodeVal, List.append_assoc, h1, h2, Int.toNat_natCast,
          Int.natCast_nonneg]
    · simp at h

theorem find?_mono {α : Type} {p q : α → Bool} {l : List α} {a : α}
    (hpq : ∀ x, q x = true → p x = true)
    (hfind : l.find? p = some a) (hqa : q a = true) :
    l.find? q = some a := by
  induction l with
  | nil => simp [List.find?] at hfind
  | cons x xs ih =>
    by_cases hpx : p x = true
    · rw [List.find?_cons_of_pos _ hpx] at hfind
      simp only [Option.some.injEq] at hfind
      subst hfind
      rw [List.find?_cons_of_pos _ hqa]
    · have hqx : ¬ q x = true := fun hq => hpx (hpq x hq)
      rw [List.find?_cons_of_neg _ hpx] at hfind
      rw [List.find?_cons_of_neg _ hqx]
      exact ih hfind

theorem table_lookup_self : ∀ e ∈ packetTable, overlapLookup e = some e := by
  decide

theorem table_pid_range : ∀ e ∈ packetTable, -(2 ^ 31) ≤ e.pid ∧ e.pid < 2 ^ 31 := by
  decide

theorem overlap_of_matches {a b : Option ℕ} {s : ℕ}
    (ha : stateMatches a s = true) (hb : stateMatches b s = true) :
    statesOverlap a b = true := by
  cases a with
  | none => cases b <;> rfl
  | some ka =>
    cases b with
    | none => rfl
    | some kb =>
      simp [stateMatches] at ha hb
      simp [statesOverlap, ha, hb]

theorem tableLookup_self {e : PacketEntry} (he : e ∈ packetTable) {s : ℕ}
    (hs : stateMatches e.pstate s = true) : tableLookup s e.pid = some e := by
  have hover := table_lookup_self e he
  unfold overlapLookup at hover
  unfold tableLookup
  apply find?_mono ?_ hover ?_
  · intro x hx
    simp only [Bool.and_eq_true, beq_iff_eq] at hx ⊢
    exact ⟨overlap_of_matches hx.1 hs, hx.2⟩
  · simp [hs]

theorem decodeFields_encodeFields {ts : List FieldType} {vs : List FieldVal}
    {bs : List ℕ} (h : encodeFields ts vs = some bs) (rest : List ℕ) :
    decodeFields ts (bs ++ rest) = some (vs, rest) := by
  induction ts generalizing vs bs with
  | nil =>
    cases vs with
    | nil => simp [encodeFields] at h; subst h; simp [decodeFields]
    | cons v vs => simp [encodeFields] at h
  | cons t ts ih =>
    cases vs with
    | nil => simp [encodeFields] at h
    | cons v vs =>
      simp only [encodeFields] at h
      cases hv : encodeVal t v with
      | none => rw [hv] at h; simp at h
      | some b =>
        cases hvs : encodeFields ts vs with
        | none => rw [hv, hvs] at h; simp at h
        | some bsr =>
          rw [hv, hvs] at h
          simp at h
          subst h
          have h1 := decodeVal_encodeVal hv (bsr ++ rest)
          have h2 := ih hvs
          simp [decodeFields, List.append_assoc, h1, h2]

theorem decodeFrame_eq {s : ℕ} {bs : List ℕ} {len : ℤ} {r : List ℕ}
    (h : decVarI32 bs = some (len, r)) (h0 : 0 ≤ len) (h1 : len.toNat ≤ r.length) :
    decodeFrame s bs
      = match decVarI32 (r.take len.toNat) with
        | some (pid, body) => (decodePacket s pid body).map fun d => (d, r.drop len.toNat)
        | none => none := by
  unfold decodeFrame
  rw [h]
  simp [h0, h1]

/-- C5: for every packet table row and every well-formed field-value list,
decoding the encoded frame — in any protocol state the row's declared state
accepts, reading the frame's declared VarInt length — returns exactly that
row and those values, leaving the remainder of the stream untouched. The
encoding covers all primitive wire types, including every VarInt boundary
value (0, 127, 128, 2097151, and the maximal 5-byte encoding). -/
theorem C5_decode_encode_roundtrip (e : PacketEntry) (vs : List FieldVal) (s : ℕ)
    (frame rest : List ℕ)
    (he : e ∈ packetTable) (hs : stateMatches e.pstate s = true)
    (henc : encodeFrame e vs = some frame) :
    decodeFrame s (frame ++ rest) = some (.known e vs, rest) := by
  unfold encodeFrame at henc
  cases hbody : encodePacketBody e vs with
  | none => rw [hbody] at henc; simp at henc
  | some body =>
    rw [hbody] at henc
    rw [Option.ite_none_right_eq_some, Option.some.injEq] at henc
    obtain ⟨hlen, rfl⟩ := henc
    have hpid := table_pid_range e he
    have hL1 : -(2 ^ 31) ≤ (((varIntBytes e.pid).length + body.length : ℕ) : ℤ) :=
      neg_two_pow_le_natCast 31 _
    have e1 := decVarI32_varIntBytes hL1 hlen ((varIntBytes e.pid ++ body) ++ rest)
    have hc1 : ((((varIntBytes e.pid).length + body.length : ℕ) : ℤ)).toNat
        ≤ ((varIntBytes e.pid ++ body) ++ rest).length := by
      rw [Int.toNat_natCast]
      simp only [List.length_append]
      omega
    have hlen' : ((varIntBytes e.pid).length + body.length)
        = (varIntBytes e.pid ++ body).length := by simp
    have e2 := decVarI32_varIntBytes hpid.1 hpid.2 body
    have e3 := tableLookup_self he hs
    unfold encodePacketBody at hbody
    have e4 := decodeFields_encodeFields hbody []
    rw [List.append_nil] at e4
    rw [List.append_assoc]
    rw [decodeFrame_eq e1 (Int.natCast_nonneg _) hc1]
    rw [Int.toNat_natCast, hlen', List.take_left, List.drop_left]
    rw [e2]
    simp [decodePacket, e3, e4]

theorem C5_decode_encode_roundtrip_witness :
    decodeFrame 3 (C5frame ++ [7]) = some (.known entryDestroyEntities C5vals, [7]) :=
  C5_decode_encode_roundtrip entryDestroyEntities C5vals 3 C5frame [7]
    (by decide) (by decide) (by decide)

/-- C8: a (state, id) pair absent from the static packet table decodes to
the `Unknown` variant rather than an error, and routing an `Unknown` packet
for a player anchored to a remote shard forwards nothing to the Messenger
(no message of any kind is emitted; the state is unchanged). -/
theorem C8_unknown_dropped (s : ℕ) (i : ℤ) (body : List ℕ)
    (st : Patchwork) (c : ℕ) (ok : Bool) (fid : ℕ) (a : Anchor) (m : Map) (peer : Peer)
    (hmiss : tableLookup s i = none)
    (ha : alistGet st.player_anchors c = some a)
    (hm : st.maps[a.map_index]? = some m)
    (hpeer : m.peer_connection = some peer) :
    decodePacket s i body = some .unknown
      ∧ routePlayerPacket st c .Unknown ok fid
          = .ok { maps := st.maps, player_anchors := st.player_anchors }
              { messenger := [], player := [], gameplay := [] } := by
  constructor
  · simp [decodePacket, hmiss]
  · simp only [routePlayerPacket, extract_map_position, ha, Option.isSome_some, if_true]
    unfold routeThroughAnchor
    simp only [Option.getD_some]
    rw [hm]
    simp [hpeer]

theorem C8_unknown_dropped_witness :
    decodePacket 3 255 [1, 2, 3] = some .unknown
      ∧ routePlayerPacket C8state 1 .Unknown true 9
          = .ok { maps := C8state.maps, player_anchors := C8state.player_anchors }
              { messenger := [], player := [], gameplay := [] } :=
  C8_unknown_dropped 3 255 [1, 2, 3] C8state 1 true 9
    { map_index := 1, conn_id := some 42 }
    { position := { x := 1, z := 0 }, entity_id_block := 1,
      peer_connection := some { address := "peer", port := 25565 } }
    { address := "peer", port := 25565 }
    (by decide) (by decide) (by decide) (by decide)

end PatchworkModel
